import Mathlib

/-
Verification development for the KIRA occupation-recommendation engine
(kira-job-recommender).  The Python sources are shallowly embedded as
executable Lean definitions:

  * pandas DataFrames become lists of structure values (one structure per
    row schema); the row index of an occupation frame is its conceptUri;
  * numpy float arithmetic becomes exact Int arithmetic; a Euclidean
    comparison dist(x, y) < 30 is embedded as distSq x y < 900, which is
    equivalent for the square root over non-negative radicands;
  * Python exceptions (KeyError, IndexError, TypeError) become
    Except.error values; sys.exit becomes a distinguished outcome;
  * np.nan cells become Option.none or a dedicated cell-value sum type.

Source files embedded: src/models/matcher/matcher.py,
src/models/recommender/recommender.py, src/pipeline/recommender_pipeline.py,
src/data/esco_helper.py.
-/

/-- conceptUri strings, the row keys of every occupation frame. -/
abbrev Uri := String

/-- One row of an occupation FutureSkill frame: the conceptUri index label
and the ten FS1..FS10 skill values (floats in the source, embedded as Int). -/
structure OccRow where
  uri : Uri
  fs : List Int
deriving DecidableEq, Repr

/-- Sum of squared componentwise differences.  The source computes
sklearn euclidean_distances (the square root of this value); every use in
the repository only compares the distance against the constant 30, so the
embedding compares this square against 900 instead. -/
def distSq (a b : List Int) : Int :=
  ((a.zip b).map (fun p => (p.1 - p.2) ^ 2)).sum

/-- Dot product of two skill vectors. -/
def dot (a b : List Int) : Int :=
  ((a.zip b).map (fun p => p.1 * p.2)).sum

/-- The helper used at matcher.py lines 195-200 and
recommender_pipeline.py lines 130-135: a missing value (np.nan, embedded
as none) or an empty list counts as absent. -/
def is_nan_or_empty {α : Type} : Option (List α) → Bool
  | none => true
  | some l => l.isEmpty

/-
C1 / orchestrator bucket selection, recommender_pipeline.py lines 128-146.

After filter_by_rating returns the pair of buckets, match_user_profile
selects one:

    if is_nan_or_empty(user_profile_rating_list):
        filtered_profiles = filtered_profiles[0]
        if filtered_profiles.empty:
            filtered_profiles = filtered_profiles[1]
    elif filtered_profiles[0].empty or len(user_profile_rating_list) == 0:
        filtered_profiles = filtered_profiles[1]
    else:
        filtered_profiles = filtered_profiles[0]

In the first branch the name filtered_profiles has already been rebound to
the first DataFrame, so the inner access filtered_profiles[1] is a column
lookup on that DataFrame, not tuple indexing; no column is labelled 1, so
pandas raises KeyError.  The embedding renders that access as an error
value.
-/
def select_bucket {β : Type} (user_profile_rating_list : Option (List String))
    (filtered_profiles : List β × List β) : Except String (List β) :=
  if is_nan_or_empty user_profile_rating_list then
    let selected := filtered_profiles.1
    if selected.isEmpty then
      Except.error "KeyError: 1"
    else
      Except.ok selected
  else if filtered_profiles.1.isEmpty || (user_profile_rating_list.getD []).length == 0 then
    Except.ok filtered_profiles.2
  else
    Except.ok filtered_profiles.1

/-
C8 / JobMatcher.filter_by_preferences, matcher.py lines 23-55.
-/

/-- One row of the merged frame produced by filter_by_preferences: an
occupation row joined with its kldb_keys cell from the esco2kldb mapping. -/
structure MergedRow where
  row : OccRow
  kldb_keys : String
deriving DecidableEq, Repr

/-- pandas inner merge of the occupation frame with the esco2kldb mapping
on conceptUri (matcher.py lines 38-42): each left row is paired with every
mapping row carrying the same conceptUri, and left rows without a match
are dropped (the pandas default how is inner). -/
def merge_esco2kldb (job_fs_profiles : List OccRow) (esco2kldb : List (Uri × String)) :
    List MergedRow :=
  job_fs_profiles.flatMap (fun r =>
    (esco2kldb.filter (fun k => k.1 == r.uri)).map (fun k => { row := r, kldb_keys := k.2 }))

/-- Substring containment over character lists: containsSub pat s is true
when pat occurs contiguously in s.  The empty pattern matches everything,
like the empty Python regex. -/
def containsSub (pat : List Char) : List Char → Bool
  | [] => pat.isEmpty
  | c :: t => pat.isPrefixOf (c :: t) || containsSub pat t

/-- The test job_fs_profiles.kldb_keys.str.contains(filter, regex=True)
where filter joins the preference numbers with the regex alternation bar
(matcher.py lines 46-49).  Each preference is a single sector digit, so
the regex matches exactly when some preference digit occurs as a substring
of the kldb_keys cell; the join of an empty preference list is the empty
regex, which matches every cell. -/
def str_contains_regex_any (s : String) (pats : List String) : Bool :=
  if pats.isEmpty then true else pats.any (fun p => containsSub p.data s.data)

/-- JobMatcher.filter_by_preferences (matcher.py lines 23-55): merge the
pool with the esco2kldb mapping, then, when preferences are given, keep
the merged rows whose kldb_keys cell matches the preference regex.  The
function returns the same frame twice (the source comment calls this a
dirty fix to return two dataframes). -/
def filter_by_preferences (job_fs_profiles : List OccRow) (esco2kldb : List (Uri × String))
    (preferences : Option (List Nat)) : List MergedRow × List MergedRow :=
  let merged := merge_esco2kldb job_fs_profiles esco2kldb
  match preferences with
  | none => (merged, merged)
  | some prefs =>
    let pats := prefs.map (fun p => toString p)
    let filtered := merged.filter (fun m => str_contains_regex_any m.kldb_keys pats)
    (filtered, filtered)

/-
C10 / JobRecommender.get_recommendations, recommender.py lines 23-34.
-/

/-- JobRecommender.get_recommendations: matches.head(10), the first ten
rows of the matched frame. -/
def get_recommendations {α : Type} (match_rows : List α) : List α :=
  match_rows.take 10

/-
C7 / RecommenderPipeline.run, recommender_pipeline.py lines 49-84.

    try:
        matches, ... = self.match_user_profile(...)
        recommendations = self.recommend_occupation(...)
    except Exception as e:
        print(f"Oops something went wrong: ...")
        sys.exit()
    return recommendations

The two pipeline stages are embedded as fallible computations; the except
clause prints and calls sys.exit, which terminates the whole process, so
no error value ever reaches the caller.
-/

/-- Possible outcomes of one call to RecommenderPipeline.run as seen by
the calling process: a returned recommendation frame, an exception
propagated to the caller, or process termination via sys.exit. -/
inductive RunOutcome (α : Type)
  | ok (recommendations : α)
  | raised (e : String)
  | exited
deriving DecidableEq, Repr

/-- True exactly when the outcome is an exception surfaced to the caller. -/
def run_surfaces_error {α : Type} : RunOutcome α → Bool
  | RunOutcome.raised _ => true
  | _ => false

/-- RecommenderPipeline.run (recommender_pipeline.py lines 49-84): run the
matcher stage, then the recommender stage, inside one try block whose
except clause ends the process (sys.exit) after printing. -/
def pipeline_run {α β : Type} (match_user_profile_step : Except String α)
    (recommend_occupation_step : α → Except String β) : RunOutcome β :=
  match match_user_profile_step with
  | Except.error _ => RunOutcome.exited
  | Except.ok match_result =>
    match recommend_occupation_step match_result with
    | Except.error _ => RunOutcome.exited
    | Except.ok recommendations => RunOutcome.ok recommendations

/-
C5 / JobMatcher.filter_by_job_history, matcher.py lines 380-436, with
esco_helper.look_up_code (esco_helper.py lines 237-238) and
esco_helper.get_narrower_occupations (esco_helper.py lines 296-307).

The ESCO occupations table is embedded as a list of (conceptUri, code)
pairs.  look_up uses a concatenated look-up table whose further pillars
(ISCO groups, skills) are irrelevant to the occupation claims, so the
embedding reads the code from the occupations table directly.
-/

/-- esco_helper.look_up_code: the code cell of the first row of the
look-up table whose conceptUri equals the argument; none when the label is
absent (pandas .loc raises KeyError, rendered by callers as an error). -/
def look_up_code (esco_occupations : List (Uri × String)) (uri : Uri) : Option String :=
  (esco_occupations.find? (fun r => r.1 == uri)).map (fun r => r.2)

/-- esco_helper.get_narrower_occupations: all occupations whose code
starts with the looked-up code of the argument and is strictly longer.  A
missing code lookup raises KeyError.  The source returns these uris as
the .values of a one-column DataFrame slice — a 2-D (n, 1) array; the
embedding keeps the uri list and the caller models the shape error that
array causes. -/
def get_narrower_occupations (esco_occupations : List (Uri × String)) (uri : Uri) :
    Except String (List Uri) :=
  match look_up_code esco_occupations uri with
  | none => Except.error "KeyError"
  | some code =>
    Except.ok ((esco_occupations.filter
      (fun r => code.data.isPrefixOf r.2.data && code.length < r.2.length)).map
      (fun r => r.1))

/-- The disliked uris of the job history (matcher.py line 394): the keys
of the history entries whose liked flag is false.  Each history entry is a
one-element dict, embedded as a (uri, liked) pair. -/
def disliked_jobs (job_history : List (Uri × Bool)) : List Uri :=
  (job_history.filter (fun jd => !jd.2)).map (fun jd => jd.1)

/-- The loop body of filter_by_job_history (matcher.py lines 402-426):
for the first disliked job, the pool row lookup (pandas .loc raises
KeyError when the disliked job is not in the pool index) and the
similarity mask are computed, then the narrower occupations are looked
up.  get_narrower_occupations returns the DataFrame slice
qualified by double brackets, [["conceptUri"]].values: a TWO-dimensional
(n, 1) array.  The union at matcher.py line 426 wraps that array in
pd.Index, and pandas raises ValueError (Index data must be
1-dimensional) for every array of that shape, the empty (0, 1) case
included.  So the loop raises on its first iteration whenever a disliked
job exists; the rest of the loop and the removal set are unreachable. -/
def history_removals (esco_occupations : List (Uri × String)) (job_fs_profiles : List OccRow) :
    List Uri → Except String (List Uri)
  | [] => Except.ok []
  | job :: _rest =>
    match job_fs_profiles.find? (fun r => r.uri == job) with
    | none => Except.error "KeyError"
    | some jobRow =>
      let _removed_profiles :=
        (job_fs_profiles.filter (fun r => decide (distSq jobRow.fs r.fs < 900))).map
          (fun r => r.uri)
      match get_narrower_occupations esco_occupations job with
      | Except.error e => Except.error e
      | Except.ok _narrower =>
        Except.error "ValueError: Index data must be 1-dimensional"

/-- JobMatcher.filter_by_job_history (matcher.py lines 380-436): when
there is at least one disliked job, remove the union of all collected
uris from the pool; otherwise return the pool unchanged. -/
def filter_by_job_history (esco_occupations : List (Uri × String))
    (job_fs_profiles : List OccRow) (job_history : List (Uri × Bool)) :
    Except String (List OccRow) :=
  let jobs_disliked := disliked_jobs job_history
  if jobs_disliked.length > 0 then
    match history_removals esco_occupations job_fs_profiles jobs_disliked with
    | Except.error e => Except.error e
    | Except.ok all_jobs_to_remove =>
      Except.ok (job_fs_profiles.filter (fun r => !all_jobs_to_remove.contains r.uri))
  else
    Except.ok job_fs_profiles

/-
C4 / JobMatcher.calculate_distances, matcher.py lines 294-339.

The method string is fixed per JobMatcher instance; both supported values
are embedded as an enumeration.  Scores are embedded order-faithfully
without square roots:

  * euclidean: the score of a candidate is distSq (query, candidate), a
    strictly monotone proxy of the Euclidean distance, so comparisons and
    ties agree with the source;
  * cosine: the score is the pair (dot(q, v) squared, dot(q, q) times
    dot(v, v)); for the non-negative skill vectors of the data model the
    cross-multiplied comparison of these pairs agrees with the comparison
    of the cosine similarities, including ties.

np.argsort does not document tie behaviour for its default sort; the
embedding models it as the stable argsort (ties keep index order), the
reading under which the spec's Euclidean stability sentence is assessed.
The cosine branch reverses the ascending argsort (matcher.py line 334),
which is modelled verbatim.  The Distance column only annotates rows with
the score already used for ordering and no claim inspects it, so the
embedding returns the reordered rows.
-/

/-- The two supported distance methods of JobMatcher. -/
inductive Method
  | euclidean
  | cosine
deriving DecidableEq, Repr

/-- Cosine score of one candidate against the query, represented exactly:
dotSq is the square of the dot product, normProd the product of the two
squared norms.  The represented value is dotSq / normProd, the square of
the cosine similarity. -/
structure CosScore where
  dotSq : Int
  normProd : Int
deriving DecidableEq, Repr

/-- Strict comparison of two cosine scores by cross multiplication
(valid when both normProd components are positive). -/
def cosLt (a b : CosScore) : Bool :=
  decide (a.dotSq * b.normProd < b.dotSq * a.normProd)

/-- Euclidean scores of the pool rows against the query vector
(matcher.py line 330), one squared distance per row in row order. -/
def euclid_scores (query_vector : List Int) (job_fs_profiles : List OccRow) : List Int :=
  job_fs_profiles.map (fun r => distSq query_vector r.fs)

/-- Cosine scores of the pool rows against the query vector
(matcher.py line 333), one exact squared-similarity per row in row order. -/
def cosine_scores (query_vector : List Int) (job_fs_profiles : List OccRow) : List CosScore :=
  job_fs_profiles.map (fun r =>
    { dotSq := (dot query_vector r.fs) ^ 2,
      normProd := dot query_vector query_vector * dot r.fs r.fs })

/-- Index comparison for the stable Euclidean argsort: strictly smaller
score first, ties resolved by input position. -/
def euclidIdxLe (s : List Int) (i j : Nat) : Bool :=
  decide (s.getD i 0 < s.getD j 0)
    || (decide (s.getD i 0 = s.getD j 0) && decide (i ≤ j))

/-- Index comparison for the stable cosine argsort: strictly smaller
similarity first, ties resolved by input position. -/
def cosIdxLe (s : List CosScore) (i j : Nat) : Bool :=
  cosLt (s.getD i ⟨0, 1⟩) (s.getD j ⟨0, 1⟩)
    || (!cosLt (s.getD i ⟨0, 1⟩) (s.getD j ⟨0, 1⟩)
        && !cosLt (s.getD j ⟨0, 1⟩) (s.getD i ⟨0, 1⟩) && decide (i ≤ j))

/-- Insertion of an index into an index list sorted by le. -/
def ordered_insert_idx (le : Nat → Nat → Bool) (i : Nat) : List Nat → List Nat
  | [] => [i]
  | j :: t => if le i j then i :: j :: t else j :: ordered_insert_idx le i t

/-- Insertion sort over index lists, the sorting kernel of the argsort
model. -/
def insertion_sort_idx (le : Nat → Nat → Bool) : List Nat → List Nat
  | [] => []
  | i :: t => ordered_insert_idx le i (insertion_sort_idx le t)

/-- Stable model of np.argsort: the positions 0..n-1 sorted by score,
ties keeping position order. -/
def argsort_stable (le : Nat → Nat → Bool) (n : Nat) : List Nat :=
  insertion_sort_idx le (List.range n)

/-- The index permutation chosen by calculate_distances (matcher.py lines
329-334): the ascending argsort of the scores for euclidean, the reversed
ascending argsort for cosine. -/
def top_indices (method : Method) (query_vector : List Int)
    (job_fs_profiles : List OccRow) : List Nat :=
  match method with
  | Method.euclidean =>
    argsort_stable (euclidIdxLe (euclid_scores query_vector job_fs_profiles))
      job_fs_profiles.length
  | Method.cosine =>
    (argsort_stable (cosIdxLe (cosine_scores query_vector job_fs_profiles))
      job_fs_profiles.length).reverse

/-- JobMatcher.calculate_distances (matcher.py lines 294-339): the pool
rows reordered by the chosen index permutation. -/
def calculate_distances (method : Method) (query_vector : List Int)
    (job_fs_profiles : List OccRow) : List OccRow :=
  (top_indices method query_vector job_fs_profiles).filterMap
    (fun i => job_fs_profiles[i]?)

/-- The output rank of input row i: its position in the chosen index
permutation. -/
def rank_of (method : Method) (query_vector : List Int)
    (job_fs_profiles : List OccRow) (i : Nat) : Nat :=
  (top_indices method query_vector job_fs_profiles).indexOf i

/-
C2, C6, C9 / JobMatcher.filter_by_rating, matcher.py lines 57-292.

One peer profile row of the reference user-profiles frame carries the
comma-joined job_recommendations and job_ratings cells (either np.nan, a
raw string, or an already-split list — the three cases of
process_column_data at matcher.py lines 119-127) and the
professional_interests cell (np.nan embedded as none).
-/

/-- A cell of the job_recommendations or job_ratings column. -/
inductive CellVal
  | na
  | str (s : String)
  | strlist (l : List String)
deriving DecidableEq, Repr

/-- Splitting a character list at commas, accumulating the current
segment in reverse; the executable embedding of str.split(",").  An empty
string splits into one empty segment, as in Python. -/
def split_commas_chars : List Char → List Char → List String
  | acc, [] => [String.mk acc.reverse]
  | acc, c :: t =>
    if c == ',' then String.mk acc.reverse :: split_commas_chars [] t
    else split_commas_chars (c :: acc) t

/-- str.split(",") over the embedded string. -/
def split_commas (s : String) : List String :=
  split_commas_chars [] s.data

/-- process_column_data (matcher.py lines 119-127): lists pass through,
missing values become empty lists, strings are split at commas. -/
def process_column_data : CellVal → List String
  | CellVal.strlist l => l
  | CellVal.na => []
  | CellVal.str s => split_commas s

/-- One row of the peer user-profiles frame. -/
structure PeerRow where
  user_id : String
  job_recommendations : CellVal
  job_ratings : CellVal
  professional_interests : Option (List String)
deriving DecidableEq, Repr

/-- One row of the expanded peer frame (expand_rows, matcher.py lines
88-106): a single recommendation paired with its rating, next to the
originating row's fields.  The ID column (the source row index) is used
nowhere downstream and is dropped from the embedding. -/
structure ExpandedRow where
  user_id : String
  conceptUri : Uri
  single_job_rating : String
  professional_interests : Option (List String)
deriving DecidableEq, Repr

/-- The positional pairing of one peer's recommended uris with the
ratings recorded for them. -/
def peer_entries (p : PeerRow) : List (Uri × String) :=
  (process_column_data p.job_recommendations).zip (process_column_data p.job_ratings)

/-- A peer recorded rating s for uri v at some position of its log. -/
def peerRated (p : PeerRow) (v : Uri) (s : String) : Prop :=
  (v, s) ∈ peer_entries p

/-- The in-place column assignment of expand_user_profiles (matcher.py
lines 130-131): both cells are overwritten with their processed lists. -/
def processed_peer (p : PeerRow) : PeerRow :=
  { p with
    job_recommendations := CellVal.strlist (process_column_data p.job_recommendations),
    job_ratings := CellVal.strlist (process_column_data p.job_ratings) }

/-- expand_rows (matcher.py lines 88-106): one output row per
(recommendation, rating) pair of each peer.  The rows reaching this
function always hold processed list cells, on which process_column_data
is the identity. -/
def expand_rows (df : List PeerRow) : List ExpandedRow :=
  df.flatMap (fun p =>
    (peer_entries p).map (fun rr =>
      { user_id := p.user_id, conceptUri := rr.1, single_job_rating := rr.2,
        professional_interests := p.professional_interests }))

/-- expand_user_profiles (matcher.py lines 108-137): process both
columns in place, then expand.  The dropna on the two list-valued columns
is a no-op after processing.  The second component is the post-state of
the caller's frame, whose columns were assigned in place — the frame-
effect claim reads it. -/
def expand_user_profiles (df_user_profiles : List PeerRow) :
    List ExpandedRow × List PeerRow :=
  let processed := df_user_profiles.map processed_peer
  (expand_rows processed, processed)

/-- The fixed KldB sector table of mapSectorsToNumbers (matcher.py lines
149-160), in source dictionary order. -/
def sectors_kldb : List (Nat × String) :=
  [(1, "Land-, Forst- und Tierwirtschaft und Gartenbau"),
   (2, "Rohstoffgewinnung, Produktion und Fertigung"),
   (3, "Bau, Architektur, Vermessung und Gebäudetechnik"),
   (4, "Naturwissenschaft, Geografie und Informatik"),
   (5, "Verkehr, Logistik, Schutz und Sicherheit"),
   (6, "Kaufmännische Dienstleistungen, Warenhandel, Vertrieb, Hotel und Tourismus"),
   (7, "Unternehmensorganisation, Buchhaltung, Recht und Verwaltung"),
   (8, "Gesundheit, Soziales, Lehre und Erziehung"),
   (9, "Sprach-, Geistes-, Gesellschafts- und Wirtschaftswissenschaften, Medien, Kunst und Kultur"),
   (0, "Militär")]

/-- mapSectorsToNumbers (matcher.py lines 139-161): the sector numbers
whose description occurs in the given list. -/
def mapSectorsToNumbers (sectorsList : List String) : List Nat :=
  (sectors_kldb.filter (fun kv => sectorsList.contains kv.2)).map (fun kv => kv.1)

/-- The num_preferences column added at matcher.py lines 269-271: the
mapped sector numbers of the row's professional interests, empty for a
missing cell. -/
def num_preferences (e : ExpandedRow) : List Nat :=
  match e.professional_interests with
  | none => []
  | some sectors => mapSectorsToNumbers sectors

/-- The peer-sourced candidate rows of the decisive path (matcher.py
lines 214-253): rows of peers that recorded the same rating for the same
uri, restricted to those peers' +1 rows, minus uris already shown. -/
def peer_candidate_rows (expanded : List ExpandedRow) (rated_conceptUri : Uri)
    (last_rating : String) (rated_conceptUri_list : List Uri) : List ExpandedRow :=
  let matching_profiles := expanded.filter
    (fun e => e.conceptUri == rated_conceptUri && e.single_job_rating == last_rating)
  let relevant_ids := matching_profiles.map (fun e => e.user_id)
  let user_profiles_prefiltered := expanded.filter
    (fun e => relevant_ids.contains e.user_id && e.single_job_rating == "1")
  user_profiles_prefiltered.filter
    (fun e => !rated_conceptUri_list.contains e.conceptUri)

/-- The two result shapes of filter_by_rating: a pair of merged
occupation frames (no-signal, skip and fallback paths) or a pair of
expanded peer frames (decisive path with candidates). -/
inductive RatingResult
  | pools (preferred alternate : List MergedRow)
  | peers (preferred alternate : List ExpandedRow)
deriving DecidableEq, Repr

/-- The fallback block repeated at matcher.py lines 204-208, 233-239 and
261-267: HistoryFilter then PreferenceFilter over the given pool, both
buckets as returned by filter_by_preferences. -/
def history_then_preferences (esco_occupations : List (Uri × String))
    (pool : List OccRow) (esco_kldb : List (Uri × String))
    (preferences : Option (List Nat)) (job_history : List (Uri × Bool)) :
    Except String RatingResult :=
  match filter_by_job_history esco_occupations pool job_history with
  | Except.error e => Except.error e
  | Except.ok by_history =>
    let p := filter_by_preferences by_history esco_kldb preferences
    Except.ok (RatingResult.pools p.1 p.2)

/-- JobMatcher.filter_by_rating (matcher.py lines 163-292).  The two
decisive branches of the source build the same filter with the literal
rating value, so they are folded over the last rating; the derived
num_preferences column is inlined into the two bucket filters; iterating
preferences = None on the decisive path raises TypeError.  getLastD is
only reached after both lists were checked non-empty.  When the expanded
peer frame has no rows, pd.DataFrame of the empty row list has no columns
at all, so the column selections of the decisive branches (matcher.py
lines 216-226) raise KeyError before any candidate set is computed; the
selections further down operate on filtered frames that kept their
columns and cannot fail the same way. -/
def filter_by_rating (transformed_profiles : List OccRow)
    (user_profiles : List PeerRow) (esco_kldb : List (Uri × String))
    (esco_occupations : List (Uri × String)) (preferences : Option (List Nat))
    (job_history : List (Uri × Bool)) (rated_conceptUri_list : Option (List Uri))
    (user_profile_rating_list : Option (List String)) : Except String RatingResult :=
  let df_user_profiles_expanded := (expand_user_profiles user_profiles).1
  if is_nan_or_empty rated_conceptUri_list || is_nan_or_empty user_profile_rating_list then
    history_then_preferences esco_occupations transformed_profiles esco_kldb
      preferences job_history
  else
    let shown := rated_conceptUri_list.getD []
    let rated_conceptUri := shown.getLastD ""
    let user_profile_last_rating := (user_profile_rating_list.getD []).getLastD ""
    if user_profile_last_rating == "-1" || user_profile_last_rating == "1" then
      if df_user_profiles_expanded.isEmpty then
        Except.error "KeyError: conceptUri"
      else
      let user_profiles_filtered := peer_candidate_rows df_user_profiles_expanded
        rated_conceptUri user_profile_last_rating shown
      if user_profiles_filtered.isEmpty then
        history_then_preferences esco_occupations
          (transformed_profiles.filter (fun r => !shown.contains r.uri)) esco_kldb
          preferences job_history
      else
        match preferences with
        | none => Except.error "TypeError"
        | some prefs =>
          let not_filtered_user_profiles := user_profiles_filtered.filter
            (fun e => prefs.all (fun p => !(num_preferences e).contains p))
          let filtered_user_profiles := user_profiles_filtered.filter
            (fun e => prefs.any (fun p => (num_preferences e).contains p))
          Except.ok (RatingResult.peers filtered_user_profiles not_filtered_user_profiles)
    else
      history_then_preferences esco_occupations
        (transformed_profiles.filter (fun r => !shown.contains r.uri)) esco_kldb
        preferences job_history

/-- Modelled from the spec's words, for comparison with the code's
peer_candidate_rows: the occupations that a matching peer rated +1 at a
position strictly after a position where that peer recorded rating r for
uri u, minus uris already shown.  The code does not enforce the
subsequent-position requirement. -/
def spec_subsequent_candidate_uris (peers : List PeerRow) (u : Uri) (r : String)
    (shown : List Uri) : List Uri :=
  (peers.flatMap (fun p =>
    let entries := peer_entries p
    (List.range entries.length).flatMap (fun jdx =>
      match entries[jdx]? with
      | some (v, s) =>
        if s == "1" && (List.range jdx).any (fun idx => entries[idx]? == some (u, r)) then
          [v]
        else []
      | none => []))).filter (fun v => !shown.contains v)

/-
C3 / JobRecommender.compare_occupation_similarity and
refine_recommendations, recommender.py lines 55-129, plus
get_comfort_zone_recommendation, lines 131-157.
-/

/-- One row of the recommendation frame inside the comfort-zone refiner:
conceptUri, the ten skill values, and the broaderUri column added by the
left merge (np.nan embedded as none). -/
structure RecRow where
  conceptUri : Uri
  fs : List Int
  broaderUri : Option Uri
deriving DecidableEq, Repr

/-- JobRecommender.compare_occupation_similarity (recommender.py lines
55-82).  The source reshapes both skill vectors with reshape(-1, 1),
which turns each 10-vector into ten one-dimensional points, and then
reads similarities[0][0]: the Euclidean distance between the FIRST
components only, that is the absolute difference of the first skill
values.  That value, not the 10-dimensional distance, is compared with
30.  (The in-place drop of the conceptUri column only affects the fresh
slice copy built by the caller.) -/
def compare_occupation_similarity (job_fs_profile broader_job_fs_profile : List Int) :
    Bool :=
  decide ((job_fs_profile.headD 0 - broader_job_fs_profile.headD 0).natAbs < 30)

/-- The broaderUri of the first broader-relations row for a conceptUri
(the .iloc[0] lookups at recommender.py lines 101 and 116); none when no
row matches, where .iloc[0] raises IndexError. -/
def look_up_broader (broader_occupations : List (Uri × Uri)) (uri : Uri) : Option Uri :=
  (broader_occupations.find? (fun b => b.1 == uri)).map (fun b => b.2)

/-- One iteration of the refine_recommendations loop (recommender.py
lines 99-124) for one snapshot uri.  The state is the current
recommended_jobs frame and the accumulated broader-substitution frame.
The broader lookup for the candidate itself sits outside the try block,
so its failure is an error; every failure inside the try block
(broader profile absent from the scaled pool, empty row selection, no
broader-broader relation) hits the bare except and keeps the state. -/
def refine_step (broader_occupations : List (Uri × Uri))
    (transformed_profiles_preferred : List OccRow)
    (occ_fs_profile_scaled : List OccRow) (state : List RecRow × List RecRow)
    (recom_uri : Uri) : Except String (List RecRow × List RecRow) :=
  match look_up_broader broader_occupations recom_uri with
  | none => Except.error "IndexError"
  | some recom_broader_uri =>
    match occ_fs_profile_scaled.find? (fun r => r.uri == recom_broader_uri) with
    | none => Except.ok state
    | some broader_fs_profile =>
      match state.1.find? (fun r => r.conceptUri == recom_uri) with
      | none => Except.ok state
      | some job_row =>
        if compare_occupation_similarity job_row.fs broader_fs_profile.fs then
          match look_up_broader broader_occupations recom_broader_uri with
          | none => Except.ok state
          | some new_broader_uri =>
            Except.ok (state.1.filter (fun r => r.conceptUri != recom_uri),
              state.2 ++ (transformed_profiles_preferred.filter
                  (fun r => r.uri == recom_broader_uri)).map
                (fun r => ⟨r.uri, r.fs, some new_broader_uri⟩))
        else Except.ok state

/-- The for-loop of refine_recommendations over the uri snapshot taken
before the loop starts (pandas iterates the Series captured at loop
entry). -/
def refine_loop (broader_occupations : List (Uri × Uri))
    (transformed_profiles_preferred : List OccRow)
    (occ_fs_profile_scaled : List OccRow) :
    List Uri → List RecRow × List RecRow → Except String (List RecRow × List RecRow)
  | [], state => Except.ok state
  | u :: rest, state =>
    match refine_step broader_occupations transformed_profiles_preferred
        occ_fs_profile_scaled state u with
    | Except.error e => Except.error e
    | Except.ok state2 =>
      refine_loop broader_occupations transformed_profiles_preferred
        occ_fs_profile_scaled rest state2

/-- JobRecommender.refine_recommendations (recommender.py lines 84-129):
run the loop from the initial frame and an empty substitution frame, then
concatenate survivors with the substitutions. -/
def refine_recommendations (broader_occupations : List (Uri × Uri))
    (recommended_jobs : List RecRow) (transformed_profiles_preferred : List OccRow)
    (occ_fs_profile_scaled : List OccRow) : Except String (List RecRow) :=
  match refine_loop broader_occupations transformed_profiles_preferred
      occ_fs_profile_scaled (recommended_jobs.map (fun r => r.conceptUri))
      (recommended_jobs, []) with
  | Except.error e => Except.error e
  | Except.ok state => Except.ok (state.1 ++ state.2)

/-- The left merge of the top jobs with the broader relations on
conceptUri (recommender.py line 150): every matching relation row
duplicates the job row; a job without relation keeps a missing
broaderUri. -/
def merge_broader (broader_occupations : List (Uri × Uri)) (top_jobs : List OccRow) :
    List RecRow :=
  top_jobs.flatMap (fun t =>
    match broader_occupations.filter (fun b => b.1 == t.uri) with
    | [] => [{ conceptUri := t.uri, fs := t.fs, broaderUri := none }]
    | ms => ms.map (fun m => { conceptUri := t.uri, fs := t.fs, broaderUri := some m.2 }))

/-- drop_duplicates(subset=broaderUri, keep=first) (recommender.py line
151); pandas treats missing values as duplicates of each other, so the
none key is deduplicated too. -/
def drop_duplicates_broader : List RecRow → List (Option Uri) → List RecRow
  | [], _ => []
  | r :: t, seen =>
    if seen.contains r.broaderUri then drop_duplicates_broader t seen
    else r :: drop_duplicates_broader t (r.broaderUri :: seen)

/-- JobRecommender.get_comfort_zone_recommendation (recommender.py lines
131-157): merge broader relations, deduplicate by broaderUri, refine the
top five, then drop the broaderUri column. -/
def get_comfort_zone_recommendation (broader_occupations : List (Uri × Uri))
    (top_jobs : List OccRow) (transformed_profiles_preferred : List OccRow)
    (transformed_profiles : List OccRow) : Except String (List (Uri × List Int)) :=
  let recommended_jobs := merge_broader broader_occupations top_jobs
  let deduped := drop_duplicates_broader recommended_jobs []
  match refine_recommendations broader_occupations (deduped.take 5)
      transformed_profiles_preferred transformed_profiles with
  | Except.error e => Except.error e
  | Except.ok final_recom => Except.ok (final_recom.map (fun r => (r.conceptUri, r.fs)))

/-- Declarative replacement condition of one refiner candidate, read off
refine_step: the broader profile is found in the scaled pool, the
first-component closeness test passes, and a broader-broader relation
exists. -/
def refine_replaces (broader_occupations : List (Uri × Uri))
    (occ_fs_profile_scaled : List OccRow) (c : RecRow) : Bool :=
  match look_up_broader broader_occupations c.conceptUri with
  | none => false
  | some b =>
    match occ_fs_profile_scaled.find? (fun r => r.uri == b) with
    | none => false
    | some bp =>
      compare_occupation_similarity c.fs bp.fs
        && (look_up_broader broader_occupations b).isSome

/-- Declarative substitution rows of one replaced candidate: the
preferred-pool rows of the broader occupation, carrying the broader
occupation's own broaderUri. -/
def refine_substitute (broader_occupations : List (Uri × Uri))
    (transformed_profiles_preferred : List OccRow) (c : RecRow) : List RecRow :=
  match look_up_broader broader_occupations c.conceptUri with
  | none => []
  | some b =>
    match look_up_broader broader_occupations b with
    | none => []
    | some nb =>
      (transformed_profiles_preferred.filter (fun r => r.uri == b)).map
        (fun r => { conceptUri := r.uri, fs := r.fs, broaderUri := some nb })

/-
C9 / frame effects.  The two in-place writes on frames received from the
caller are the column rename in calculate_distances (matcher.py lines
307-322, rename with inplace=True on the passed job_fs_profiles) and the
column assignments of expand_user_profiles (matcher.py lines 130-131,
reached from filter_by_rating on the shared user-profiles frame).  The
state of a skill frame is embedded as its column-name list plus rows.
-/

/-- The legacy-to-FS column map of calculate_distances (matcher.py lines
308-319). -/
def column_map : List (String × String) :=
  [("self_initiative", "FS1"), ("flexibility", "FS2"), ("leadership", "FS3"),
   ("communication", "FS4"), ("creativity", "FS5"), ("customer_orientation", "FS6"),
   ("organization", "FS7"), ("problem_solving", "FS8"), ("resilience", "FS9"),
   ("goal_orientation", "FS10")]

/-- A skill frame as mutable state: its column labels and its rows. -/
structure FsFrame where
  cols : List String
  rows : List (Uri × List Int)
deriving DecidableEq, Repr

/-- DataFrame.rename(columns=column_map): every column label that is a
key of the map is replaced by its image. -/
def rename_fs_columns (cols : List String) : List String :=
  cols.map (fun c => ((column_map.find? (fun m => m.1 == c)).map (fun m => m.2)).getD c)

/-- The post-state of the job_fs_profiles argument after
calculate_distances returns (matcher.py lines 321-322): renamed in place
when the legacy column name is present, untouched otherwise. -/
def calculate_distances_frame_post (job_fs_profiles : FsFrame) : FsFrame :=
  if job_fs_profiles.cols.contains "self_initiative" then
    { job_fs_profiles with cols := rename_fs_columns job_fs_profiles.cols }
  else job_fs_profiles

/-
Theorems.
-/

/-- Claim C1 (code bug, evaluated at the failing input): on the no-signal
path (empty RatingLog) with an empty preferred bucket, the orchestrator's
selection step raises KeyError instead of selecting the alternate bucket,
because the tuple variable was already rebound to the first DataFrame when
the index 1 is applied. -/
theorem kira_C1_bug_eval :
    select_bucket (β := MergedRow) none ([], []) = Except.error "KeyError: 1" := rfl

/-- Membership in the inner merge: a merged row is exactly an occupation
row of the pool paired with a matching esco2kldb entry. -/
theorem mem_merge_esco2kldb {pool : List OccRow} {kldb : List (Uri × String)}
    {m : MergedRow} :
    m ∈ merge_esco2kldb pool kldb ↔ m.row ∈ pool ∧ (m.row.uri, m.kldb_keys) ∈ kldb := by
  constructor
  · intro h
    rcases List.mem_flatMap.mp h with ⟨r, hr, hm⟩
    rcases List.mem_map.mp hm with ⟨k, hk, rfl⟩
    rcases List.mem_filter.mp hk with ⟨hkmem, hkeq⟩
    have hk1 : k.1 = r.uri := by simpa using hkeq
    refine ⟨hr, ?_⟩
    have : (r.uri, k.2) = k := by
      cases k
      simp at hk1
      simp [hk1]
    simpa [this] using hkmem
  · rintro ⟨hrow, hk⟩
    refine List.mem_flatMap.mpr ⟨m.row, hrow, ?_⟩
    refine List.mem_map.mpr ⟨(m.row.uri, m.kldb_keys), ?_, rfl⟩
    exact List.mem_filter.mpr ⟨hk, by simp⟩

/-- Claim C8 (amended): filter_by_preferences does not leave the pool
unchanged; it inner-merges the pool with the esco2kldb mapping (dropping
occupations without a kldb entry and duplicating rows with several
entries) and, for a non-empty preference list, keeps exactly the merged
rows whose kldb_keys string contains the decimal text of some preference
as a substring; both components of the returned pair are the same frame. -/
theorem kira_C8_amended (pool : List OccRow) (kldb : List (Uri × String))
    (prefs : Option (List Nat)) (m : MergedRow) :
    (filter_by_preferences pool kldb prefs).2 = (filter_by_preferences pool kldb prefs).1
    ∧ (m ∈ (filter_by_preferences pool kldb prefs).1 ↔
        m.row ∈ pool ∧ (m.row.uri, m.kldb_keys) ∈ kldb ∧
          ∀ ps, prefs = some ps → ps ≠ [] →
            ∃ p ∈ ps, containsSub (toString p).data m.kldb_keys.data = true) := by
  constructor
  · cases prefs <;> rfl
  · cases prefs with
    | none =>
      simp only [filter_by_preferences]
      rw [mem_merge_esco2kldb]
      simp
    | some ps =>
      simp only [filter_by_preferences]
      rcases ps with _ | ⟨p0, ptail⟩
      · rw [List.mem_filter, mem_merge_esco2kldb]
        simp [str_contains_regex_any]
      · rw [List.mem_filter, mem_merge_esco2kldb]
        simp only [str_contains_regex_any]
        rw [if_neg (by simp)]
        simp only [List.any_eq_true, List.mem_map]
        constructor
        · rintro ⟨⟨h1, h2⟩, h3⟩
          refine ⟨h1, h2, ?_⟩
          rintro qs hqs -
          injection hqs with hqs
          subst hqs
          rcases h3 with ⟨q, ⟨p, hp, rfl⟩, hqc⟩
          exact ⟨p, hp, hqc⟩
        · rintro ⟨h1, h2, h3⟩
          rcases h3 (p0 :: ptail) rfl (by simp) with ⟨p, hp, hpc⟩
          exact ⟨⟨h1, h2⟩, ⟨toString p, ⟨p, hp, rfl⟩, hpc⟩⟩

/-- Claim C8 (counterexample): with absent preferences and a pool
occupation that has no esco2kldb entry, the returned bucket is empty, not
the unchanged pool — the inner merge silently drops the occupation. -/
theorem kira_C8_counterexample :
    (filter_by_preferences [{ uri := "a", fs := [0, 0, 0, 0, 0, 0, 0, 0, 0, 0] }] [] none).1 = []
    ∧ [({ uri := "a", fs := [0, 0, 0, 0, 0, 0, 0, 0, 0, 0] } : OccRow)] ≠ [] :=
  ⟨rfl, by decide⟩

/-- Claim C10: with the comfort-zone mode off, get_recommendations returns
exactly the first min(10, length) rows of the matched frame in their given
order — a prefix of the ranked list, never reordered and never longer
than ten rows. -/
theorem kira_C10 (match_rows : List (OccRow × Int)) :
    (get_recommendations match_rows).length = min 10 match_rows.length
    ∧ get_recommendations match_rows <+: match_rows
    ∧ ∀ i : Nat, i < 10 → (get_recommendations match_rows)[i]? = match_rows[i]? := by
  refine ⟨?_, ⟨match_rows.drop 10, List.take_append_drop 10 match_rows⟩, ?_⟩
  · simp [get_recommendations]
  · intro i hi
    simp [get_recommendations, List.getElem?_take, hi]

/-- Claim C10 (witness): the top-ten truncation evaluated on a concrete
two-row match frame. -/
theorem kira_C10_witness :
    (get_recommendations [(({ uri := "a", fs := [] } : OccRow), (3 : Int)),
        (({ uri := "b", fs := [] } : OccRow), (7 : Int))]).length
      = min 10 [(({ uri := "a", fs := [] } : OccRow), (3 : Int)),
        (({ uri := "b", fs := [] } : OccRow), (7 : Int))].length
    ∧ (get_recommendations [(({ uri := "a", fs := [] } : OccRow), (3 : Int)),
        (({ uri := "b", fs := [] } : OccRow), (7 : Int))])[1]?
      = [(({ uri := "a", fs := [] } : OccRow), (3 : Int)),
        (({ uri := "b", fs := [] } : OccRow), (7 : Int))][1]? :=
  ⟨(kira_C10 _).1, (kira_C10 _).2.2 1 (by decide)⟩

/-- Claim C7 (amended): any stage error aborts the whole request with no
partial result, but the failure ends the process through sys.exit instead
of being surfaced to the caller as a validation error; a returned result
exists only when both stages succeeded. -/
theorem kira_C7_amended {α β : Type} (m : Except String α)
    (rec : α → Except String β) :
    (∀ e, m = Except.error e → pipeline_run m rec = RunOutcome.exited)
    ∧ (∀ a e, m = Except.ok a → rec a = Except.error e →
        pipeline_run m rec = RunOutcome.exited)
    ∧ ∀ r, pipeline_run m rec = RunOutcome.ok r →
        ∃ a, m = Except.ok a ∧ rec a = Except.ok r := by
  refine ⟨?_, ?_, ?_⟩
  · rintro e rfl
    rfl
  · rintro a e rfl h
    simp [pipeline_run, h]
  · intro r h
    cases m with
    | error e => simp [pipeline_run] at h
    | ok a =>
      cases hrec : rec a with
      | error e => simp [pipeline_run, hrec] at h
      | ok b =>
        refine ⟨a, rfl, ?_⟩
        simp only [pipeline_run, hrec] at h
        cases h
        exact hrec

/-- Claim C7 (counterexample): a SchemaMismatch raised in the matcher
stage makes run terminate the process (sys.exit), and no exception is
surfaced to the caller at all, contradicting the claim that the failure is
surfaced as a validation error rather than terminating the process. -/
theorem kira_C7_counterexample :
    pipeline_run (α := List OccRow) (β := List OccRow)
        (Except.error "SchemaMismatch") (fun m => Except.ok m) = RunOutcome.exited
    ∧ run_surfaces_error (pipeline_run (α := List OccRow) (β := List OccRow)
        (Except.error "SchemaMismatch") (fun m => Except.ok m)) = false :=
  ⟨rfl, rfl⟩

/-- Claim C7 (witness): the amended abort property applied to a concrete
failing matcher stage. -/
theorem kira_C7_witness :
    pipeline_run (α := Nat) (β := Nat) (Except.error "SchemaMismatch")
      (fun a => Except.ok a) = RunOutcome.exited :=
  (kira_C7_amended (Except.error "SchemaMismatch") (fun a => Except.ok a)).1
    "SchemaMismatch" rfl

/-- The disliked-jobs extraction ignores liked entries: restricting the
history to its disliked entries first changes nothing. -/
theorem disliked_jobs_filter (job_history : List (Uri × Bool)) :
    disliked_jobs (job_history.filter (fun jd => !jd.2)) = disliked_jobs job_history := by
  simp [disliked_jobs, List.filter_filter]

/-- Claim C5 (code bug, evaluated at the failing input): for any history
containing a disliked job that is present in the pool and the ESCO table,
filter_by_job_history raises ValueError — matcher.py line 426 wraps the
2-D (n, 1) narrower-occupations array in pd.Index — so the run aborts
instead of producing the filtered pool that the claim and the function's
own docstring describe; the same history with the job liked returns the
pool unchanged, showing the failure is specific to dislikes. -/
theorem kira_C5_bug_eval :
    filter_by_job_history [("d", "11"), ("n", "111"), ("x", "2")]
        [{ uri := "d", fs := [0, 0, 0, 0, 0, 0, 0, 0, 0, 0] },
         { uri := "n", fs := [100, 0, 0, 0, 0, 0, 0, 0, 0, 0] },
         { uri := "y", fs := [1, 0, 0, 0, 0, 0, 0, 0, 0, 0] },
         { uri := "x", fs := [0, 100, 0, 0, 0, 0, 0, 0, 0, 0] }]
        [("d", false)]
      = Except.error "ValueError: Index data must be 1-dimensional"
    ∧ filter_by_job_history [("d", "11"), ("n", "111"), ("x", "2")]
        [{ uri := "d", fs := [0, 0, 0, 0, 0, 0, 0, 0, 0, 0] },
         { uri := "n", fs := [100, 0, 0, 0, 0, 0, 0, 0, 0, 0] },
         { uri := "y", fs := [1, 0, 0, 0, 0, 0, 0, 0, 0, 0] },
         { uri := "x", fs := [0, 100, 0, 0, 0, 0, 0, 0, 0, 0] }]
        [("d", true)]
      = Except.ok [{ uri := "d", fs := [0, 0, 0, 0, 0, 0, 0, 0, 0, 0] },
         { uri := "n", fs := [100, 0, 0, 0, 0, 0, 0, 0, 0, 0] },
         { uri := "y", fs := [1, 0, 0, 0, 0, 0, 0, 0, 0, 0] },
         { uri := "x", fs := [0, 100, 0, 0, 0, 0, 0, 0, 0, 0] }] :=
  ⟨rfl, rfl⟩

/-- Membership after inserting an index. -/
theorem mem_ordered_insert_idx (le : Nat → Nat → Bool) (i x : Nat) (l : List Nat) :
    x ∈ ordered_insert_idx le i l ↔ x = i ∨ x ∈ l := by
  induction l with
  | nil => simp [ordered_insert_idx]
  | cons j t ih =>
    simp only [ordered_insert_idx]
    by_cases hle : le i j = true
    · rw [if_pos hle]
      simp [List.mem_cons]
    · rw [if_neg hle]
      simp [List.mem_cons, ih]
      tauto

/-- Membership is preserved by the argsort kernel. -/
theorem mem_insertion_sort_idx (le : Nat → Nat → Bool) (x : Nat) (l : List Nat) :
    x ∈ insertion_sort_idx le l ↔ x ∈ l := by
  induction l with
  | nil => simp [insertion_sort_idx]
  | cons j t ih =>
    simp [insertion_sort_idx, mem_ordered_insert_idx, ih, List.mem_cons]

/-- Inserting a fresh index keeps the index list duplicate-free. -/
theorem nodup_ordered_insert_idx (le : Nat → Nat → Bool) (i : Nat) (l : List Nat)
    (hi : i ∉ l) (h : l.Nodup) : (ordered_insert_idx le i l).Nodup := by
  induction l with
  | nil => simp [ordered_insert_idx]
  | cons j t ih =>
    simp only [ordered_insert_idx]
    rcases List.nodup_cons.mp h with ⟨hjt, ht⟩
    by_cases hle : le i j = true
    · rw [if_pos hle]
      exact List.nodup_cons.mpr ⟨hi, h⟩
    · rw [if_neg hle]
      refine List.nodup_cons.mpr
        ⟨?_, ih (fun hh => hi (List.mem_cons_of_mem _ hh)) ht⟩
      intro hjmem
      rcases (mem_ordered_insert_idx le i j t).mp hjmem with heq | hjm
      · exact hi (heq ▸ List.mem_cons_self _ _)
      · exact hjt hjm

/-- The argsort kernel keeps the index list duplicate-free. -/
theorem nodup_insertion_sort_idx (le : Nat → Nat → Bool) (l : List Nat) (h : l.Nodup) :
    (insertion_sort_idx le l).Nodup := by
  induction l with
  | nil => simp [insertion_sort_idx]
  | cons j t ih =>
    rcases List.nodup_cons.mp h with ⟨hjt, ht⟩
    exact nodup_ordered_insert_idx le j _
      (fun hh => hjt ((mem_insertion_sort_idx le j t).mp hh)) (ih ht)

/-- Sortedness of ordered insertion, for a transitive and total boolean
relation. -/
theorem pairwise_ordered_insert_idx (le : Nat → Nat → Bool)
    (htrans : ∀ a b c, le a b = true → le b c = true → le a c = true)
    (htotal : ∀ a b, le a b = true ∨ le b a = true)
    (i : Nat) (l : List Nat) (h : l.Pairwise (fun a b => le a b = true)) :
    (ordered_insert_idx le i l).Pairwise (fun a b => le a b = true) := by
  induction l with
  | nil => simp [ordered_insert_idx]
  | cons j t ih =>
    simp only [ordered_insert_idx]
    rcases List.pairwise_cons.mp h with ⟨hjt, ht⟩
    by_cases hle : le i j = true
    · rw [if_pos hle]
      refine List.pairwise_cons.mpr ⟨?_, h⟩
      intro x hx
      rcases List.mem_cons.mp hx with rfl | hx2
      · exact hle
      · exact htrans i j x hle (hjt x hx2)
    · rw [if_neg hle]
      have hji : le j i = true := (htotal i j).resolve_left hle
      refine List.pairwise_cons.mpr ⟨?_, ih ht⟩
      intro x hx
      rcases (mem_ordered_insert_idx le i x t).mp hx with rfl | hx2
      · exact hji
      · exact hjt x hx2

/-- Sortedness of the argsort kernel, for a transitive and total boolean
relation. -/
theorem pairwise_insertion_sort_idx (le : Nat → Nat → Bool)
    (htrans : ∀ a b c, le a b = true → le b c = true → le a c = true)
    (htotal : ∀ a b, le a b = true ∨ le b a = true) (l : List Nat) :
    (insertion_sort_idx le l).Pairwise (fun a b => le a b = true) := by
  induction l with
  | nil => simp [insertion_sort_idx]
  | cons j t ih => exact pairwise_ordered_insert_idx le htrans htotal j _ ih

/-- In a duplicate-free list sorted by R, an element that R does not allow
after another one appears strictly earlier. -/
theorem before_of_pairwise {R : Nat → Nat → Prop} {l : List Nat}
    (hp : l.Pairwise R) {i j : Nat}
    (hi : i ∈ l) (hj : j ∈ l) (hij : i ≠ j) (hnR : ¬ R j i) :
    l.indexOf i < l.indexOf j := by
  have hil : l.indexOf i < l.length := List.indexOf_lt_length.mpr hi
  have hjl : l.indexOf j < l.length := List.indexOf_lt_length.mpr hj
  have hgi : l[l.indexOf i] = i := List.getElem_indexOf hil
  have hgj : l[l.indexOf j] = j := List.getElem_indexOf hjl
  rcases Nat.lt_trichotomy (l.indexOf i) (l.indexOf j) with h | h | h
  · exact h
  · exfalso
    apply hij
    rw [← hgi, ← hgj]
    simp [h]
  · exfalso
    apply hnR
    have := List.pairwise_iff_get.mp hp ⟨l.indexOf j, hjl⟩ ⟨l.indexOf i, hil⟩ h
    simpa [List.get_eq_getElem, hgi, hgj] using this

/-- Transitivity of the Euclidean index comparison. -/
theorem euclidIdxLe_trans (s : List Int) (a b c : Nat)
    (hab : euclidIdxLe s a b = true) (hbc : euclidIdxLe s b c = true) :
    euclidIdxLe s a c = true := by
  simp only [euclidIdxLe, Bool.or_eq_true, Bool.and_eq_true, decide_eq_true_eq] at *
  rcases hab with h1 | ⟨h1, h1'⟩ <;> rcases hbc with h2 | ⟨h2, h2'⟩ <;> omega

/-- Totality of the Euclidean index comparison. -/
theorem euclidIdxLe_total (s : List Int) (a b : Nat) :
    euclidIdxLe s a b = true ∨ euclidIdxLe s b a = true := by
  simp only [euclidIdxLe, Bool.or_eq_true, Bool.and_eq_true, decide_eq_true_eq]
  omega

/-- Cross-multiplied strict comparisons chain when all denominators are
positive. -/
theorem cross_lt_trans {a1 a2 b1 b2 c1 c2 : Int} (ha : 0 < a2) (hb : 0 < b2)
    (hc : 0 < c2) (h1 : a1 * b2 < b1 * a2) (h2 : b1 * c2 < c1 * b2) :
    a1 * c2 < c1 * a2 := by
  have h1' := mul_lt_mul_of_pos_right h1 hc
  have h2' := mul_lt_mul_of_pos_right h2 ha
  have h3 : a1 * c2 * b2 < c1 * a2 * b2 := by nlinarith
  exact lt_of_mul_lt_mul_right h3 (le_of_lt hb)

/-- A strict comparison followed by a tie stays strict. -/
theorem cross_lt_of_lt_eq {a1 a2 b1 b2 c1 c2 : Int} (ha : 0 < a2) (hb : 0 < b2)
    (hc : 0 < c2) (h1 : a1 * b2 < b1 * a2) (h2 : b1 * c2 = c1 * b2) :
    a1 * c2 < c1 * a2 := by
  have h1' := mul_lt_mul_of_pos_right h1 hc
  have h3 : a1 * c2 * b2 < c1 * a2 * b2 := by nlinarith
  exact lt_of_mul_lt_mul_right h3 (le_of_lt hb)

/-- A tie followed by a strict comparison stays strict. -/
theorem cross_lt_of_eq_lt {a1 a2 b1 b2 c1 c2 : Int} (ha : 0 < a2) (hb : 0 < b2)
    (hc : 0 < c2) (h1 : a1 * b2 = b1 * a2) (h2 : b1 * c2 < c1 * b2) :
    a1 * c2 < c1 * a2 := by
  have h2' := mul_lt_mul_of_pos_right h2 ha
  have h3 : a1 * c2 * b2 < c1 * a2 * b2 := by nlinarith
  exact lt_of_mul_lt_mul_right h3 (le_of_lt hb)

/-- Ties of cross-multiplied comparisons chain when all denominators are
positive. -/
theorem cross_eq_trans {a1 a2 b1 b2 c1 c2 : Int} (hb : 0 < b2)
    (h1 : a1 * b2 = b1 * a2) (h2 : b1 * c2 = c1 * b2) :
    a1 * c2 = c1 * a2 := by
  have h3 : a1 * c2 * b2 = c1 * a2 * b2 := by linear_combination c2 * h1 + a2 * h2
  exact mul_right_cancel₀ (ne_of_gt hb) h3

/-- The strict cosine comparison unfolded to its integer inequality. -/
theorem cosLt_iff (A B : CosScore) :
    cosLt A B = true ↔ A.dotSq * B.normProd < B.dotSq * A.normProd := by
  simp [cosLt]

/-- The negated strict cosine comparison unfolded. -/
theorem cosLt_false_iff (A B : CosScore) :
    cosLt A B = false ↔ ¬ A.dotSq * B.normProd < B.dotSq * A.normProd := by
  simp [cosLt]

/-- Two-sided negation of the strict cosine comparison is a cross
equality. -/
theorem cosLt_tie_eq {A B : CosScore} (h : cosLt A B = false)
    (h' : cosLt B A = false) :
    A.dotSq * B.normProd = B.dotSq * A.normProd := by
  rw [cosLt_false_iff] at h h'
  exact le_antisymm (not_lt.mp h') (not_lt.mp h)

/-- The cosine index comparison unfolded into its strict and tie parts. -/
theorem cosIdxLe_iff (s : List CosScore) (i j : Nat) :
    cosIdxLe s i j = true ↔
      cosLt (s.getD i ⟨0, 1⟩) (s.getD j ⟨0, 1⟩) = true
      ∨ (cosLt (s.getD i ⟨0, 1⟩) (s.getD j ⟨0, 1⟩) = false
          ∧ cosLt (s.getD j ⟨0, 1⟩) (s.getD i ⟨0, 1⟩) = false ∧ i ≤ j) := by
  simp [cosIdxLe, and_assoc]

/-- Transitivity of the cosine index comparison when every score has a
positive norm product. -/
theorem cosIdxLe_trans (s : List CosScore)
    (hpos : ∀ k : Nat, 0 < (s.getD k ⟨0, 1⟩).normProd) (a b c : Nat)
    (hab : cosIdxLe s a b = true) (hbc : cosIdxLe s b c = true) :
    cosIdxLe s a c = true := by
  have hA := hpos a
  have hB := hpos b
  have hC := hpos c
  rw [cosIdxLe_iff] at hab hbc ⊢
  rcases hab with h1 | ⟨h1, h1', h1''⟩ <;> rcases hbc with h2 | ⟨h2, h2', h2''⟩
  · rw [cosLt_iff] at h1 h2
    exact Or.inl ((cosLt_iff _ _).mpr (cross_lt_trans hA hB hC h1 h2))
  · rw [cosLt_iff] at h1
    exact Or.inl ((cosLt_iff _ _).mpr
      (cross_lt_of_lt_eq hA hB hC h1 (cosLt_tie_eq h2 h2')))
  · rw [cosLt_iff] at h2
    exact Or.inl ((cosLt_iff _ _).mpr
      (cross_lt_of_eq_lt hA hB hC (cosLt_tie_eq h1 h1') h2))
  · have heq := cross_eq_trans hB (cosLt_tie_eq h1 h1') (cosLt_tie_eq h2 h2')
    refine Or.inr ⟨?_, ?_, le_trans h1'' h2''⟩
    · exact (cosLt_false_iff _ _).mpr (not_lt.mpr heq.ge)
    · exact (cosLt_false_iff _ _).mpr (not_lt.mpr heq.le)

/-- Totality of the cosine index comparison. -/
theorem cosIdxLe_total (s : List CosScore) (a b : Nat) :
    cosIdxLe s a b = true ∨ cosIdxLe s b a = true := by
  rw [cosIdxLe_iff, cosIdxLe_iff]
  cases hab : cosLt (s.getD a ⟨0, 1⟩) (s.getD b ⟨0, 1⟩) with
  | true => exact Or.inl (Or.inl rfl)
  | false =>
    cases hba : cosLt (s.getD b ⟨0, 1⟩) (s.getD a ⟨0, 1⟩) with
    | true => exact Or.inr (Or.inl rfl)
    | false =>
      rcases Nat.le_total a b with h | h
      · exact Or.inl (Or.inr ⟨rfl, rfl, h⟩)
      · exact Or.inr (Or.inr ⟨rfl, rfl, h⟩)

/-- The Euclidean score list read at an in-range position. -/
theorem euclid_scores_getD (q : List Int) (pool : List OccRow) (i : Nat)
    (hi : i < pool.length) :
    (euclid_scores q pool).getD i 0 = distSq q (pool[i].fs) := by
  simp [euclid_scores, List.getD_eq_getElem?_getD, List.getElem?_map,
    List.getElem?_eq_getElem hi]

/-- The cosine score list read at an in-range position. -/
theorem cosine_scores_getD (q : List Int) (pool : List OccRow) (i : Nat)
    (hi : i < pool.length) :
    (cosine_scores q pool).getD i ⟨0, 1⟩
      = { dotSq := (dot q (pool[i].fs)) ^ 2,
          normProd := dot q q * dot (pool[i].fs) (pool[i].fs) } := by
  simp [cosine_scores, List.getD_eq_getElem?_getD, List.getElem?_map,
    List.getElem?_eq_getElem hi]

/-- Claim C4 (amended): under the stable model of np.argsort, the
Euclidean ranking is ascending by distance with ties keeping input order;
the cosine ranking is descending by similarity, but because the source
reverses the ascending argsort, candidates with identical similarity
appear in reversed input order.  Scores are the order-faithful
squared-distance and squared-similarity proxies; the positivity
hypotheses say that neither the query nor any candidate is the zero
vector. -/
theorem kira_C4_amended (q : List Int) (pool : List OccRow) (i j : Nat)
    (hi : i < pool.length) (hj : j < pool.length)
    (hqpos : 0 < dot q q) (hvpos : ∀ r ∈ pool, 0 < dot r.fs r.fs) :
    (distSq q pool[i].fs < distSq q pool[j].fs →
      rank_of Method.euclidean q pool i < rank_of Method.euclidean q pool j)
    ∧ (distSq q pool[i].fs = distSq q pool[j].fs → i < j →
      rank_of Method.euclidean q pool i < rank_of Method.euclidean q pool j)
    ∧ (cosLt ((cosine_scores q pool).getD j ⟨0, 1⟩)
        ((cosine_scores q pool).getD i ⟨0, 1⟩) = true →
      rank_of Method.cosine q pool i < rank_of Method.cosine q pool j)
    ∧ ((cosine_scores q pool).getD i ⟨0, 1⟩ = (cosine_scores q pool).getD j ⟨0, 1⟩ →
      i < j →
      rank_of Method.cosine q pool j < rank_of Method.cosine q pool i) := by
  have hir : i ∈ List.range pool.length := List.mem_range.mpr hi
  have hjr : j ∈ List.range pool.length := List.mem_range.mpr hj
  have hsi := euclid_scores_getD q pool i hi
  have hsj := euclid_scores_getD q pool j hj
  have hpE := pairwise_insertion_sort_idx (euclidIdxLe (euclid_scores q pool))
    (euclidIdxLe_trans (euclid_scores q pool)) (euclidIdxLe_total (euclid_scores q pool))
    (List.range pool.length)
  have hmemEi : i ∈ argsort_stable (euclidIdxLe (euclid_scores q pool)) pool.length :=
    (mem_insertion_sort_idx _ _ _).mpr hir
  have hmemEj : j ∈ argsort_stable (euclidIdxLe (euclid_scores q pool)) pool.length :=
    (mem_insertion_sort_idx _ _ _).mpr hjr
  have hposAll : ∀ k : Nat, 0 < ((cosine_scores q pool).getD k ⟨0, 1⟩).normProd := by
    intro k
    by_cases hk : k < pool.length
    · rw [cosine_scores_getD q pool k hk]
      exact mul_pos hqpos (hvpos _ (List.getElem_mem hk))
    · have hlen : (cosine_scores q pool).length ≤ k := by
        simp only [cosine_scores, List.length_map]
        omega
      rw [List.getD_eq_getElem?_getD, List.getElem?_eq_none hlen]
      decide
  have hpC := pairwise_insertion_sort_idx (cosIdxLe (cosine_scores q pool))
    (cosIdxLe_trans (cosine_scores q pool) hposAll)
    (cosIdxLe_total (cosine_scores q pool)) (List.range pool.length)
  have hrev : (argsort_stable (cosIdxLe (cosine_scores q pool)) pool.length).reverse.Pairwise
      (fun a b => cosIdxLe (cosine_scores q pool) b a = true) :=
    List.pairwise_reverse.mpr hpC
  have hmemCi :
      i ∈ (argsort_stable (cosIdxLe (cosine_scores q pool)) pool.length).reverse :=
    List.mem_reverse.mpr ((mem_insertion_sort_idx _ _ _).mpr hir)
  have hmemCj :
      j ∈ (argsort_stable (cosIdxLe (cosine_scores q pool)) pool.length).reverse :=
    List.mem_reverse.mpr ((mem_insertion_sort_idx _ _ _).mpr hjr)
  refine ⟨?_, ?_, ?_, ?_⟩
  · intro hlt
    have hij : i ≠ j := by
      intro h
      subst h
      exact lt_irrefl _ hlt
    have hnR : ¬ (euclidIdxLe (euclid_scores q pool) j i = true) := by
      simp only [euclidIdxLe, Bool.or_eq_true, Bool.and_eq_true, decide_eq_true_eq,
        hsi, hsj]
      omega
    simp only [rank_of, top_indices]
    exact before_of_pairwise hpE hmemEi hmemEj hij hnR
  · intro heq hij'
    have hij : i ≠ j := Nat.ne_of_lt hij'
    have hnR : ¬ (euclidIdxLe (euclid_scores q pool) j i = true) := by
      simp only [euclidIdxLe, Bool.or_eq_true, Bool.and_eq_true, decide_eq_true_eq,
        hsi, hsj]
      omega
    simp only [rank_of, top_indices]
    exact before_of_pairwise hpE hmemEi hmemEj hij hnR
  · intro hstrict
    have hij : i ≠ j := by
      intro h
      subst h
      rw [cosLt_iff] at hstrict
      exact lt_irrefl _ hstrict
    have hnR : ¬ (cosIdxLe (cosine_scores q pool) i j = true) := by
      rw [cosIdxLe_iff]
      rintro (h | ⟨h1, h2, h3⟩)
      · rw [cosLt_iff] at h hstrict
        exact lt_asymm h hstrict
      · rw [h2] at hstrict
        cases hstrict
    simp only [rank_of, top_indices]
    exact before_of_pairwise hrev hmemCi hmemCj hij hnR
  · intro heq hij'
    have hij : j ≠ i := (Nat.ne_of_lt hij').symm
    have hnR : ¬ (cosIdxLe (cosine_scores q pool) j i = true) := by
      rw [cosIdxLe_iff]
      rintro (h | ⟨h1, h2, h3⟩)
      · rw [heq] at h
        rw [cosLt_iff] at h
        exact lt_irrefl _ h
      · omega
    simp only [rank_of, top_indices]
    exact before_of_pairwise hrev hmemCj hmemCi hij hnR

/-- Claim C4 (counterexample): two candidates with identical skill
vectors have identical cosine scores, yet the cosine ranking returns them
in reversed input order, because the source reverses the ascending
argsort; this refutes the claimed stable tie-break for the cosine metric. -/
theorem kira_C4_counterexample :
    (cosine_scores [1, 1, 1, 1, 1, 1, 1, 1, 1, 1]
        [{ uri := "a", fs := [1, 1, 1, 1, 1, 1, 1, 1, 1, 1] },
         { uri := "b", fs := [1, 1, 1, 1, 1, 1, 1, 1, 1, 1] }]).getD 0 ⟨0, 1⟩
      = (cosine_scores [1, 1, 1, 1, 1, 1, 1, 1, 1, 1]
        [{ uri := "a", fs := [1, 1, 1, 1, 1, 1, 1, 1, 1, 1] },
         { uri := "b", fs := [1, 1, 1, 1, 1, 1, 1, 1, 1, 1] }]).getD 1 ⟨0, 1⟩
    ∧ (calculate_distances Method.cosine [1, 1, 1, 1, 1, 1, 1, 1, 1, 1]
        [{ uri := "a", fs := [1, 1, 1, 1, 1, 1, 1, 1, 1, 1] },
         { uri := "b", fs := [1, 1, 1, 1, 1, 1, 1, 1, 1, 1] }]).map (fun r => r.uri)
      = ["b", "a"] :=
  ⟨rfl, rfl⟩

/-- Claim C4 (witness): the amended ordering property applied to a
concrete pool — the strictly closer candidate ranks first under the
Euclidean metric. -/
theorem kira_C4_witness :
    rank_of Method.euclidean [1, 1, 1, 1, 1, 1, 1, 1, 1, 1]
      [{ uri := "near", fs := [1, 1, 1, 1, 1, 1, 1, 1, 1, 1] },
       { uri := "far", fs := [9, 9, 9, 9, 9, 9, 9, 9, 9, 9] }] 0
    < rank_of Method.euclidean [1, 1, 1, 1, 1, 1, 1, 1, 1, 1]
      [{ uri := "near", fs := [1, 1, 1, 1, 1, 1, 1, 1, 1, 1] },
       { uri := "far", fs := [9, 9, 9, 9, 9, 9, 9, 9, 9, 9] }] 1 :=
  (kira_C4_amended [1, 1, 1, 1, 1, 1, 1, 1, 1, 1]
    [{ uri := "near", fs := [1, 1, 1, 1, 1, 1, 1, 1, 1, 1] },
     { uri := "far", fs := [9, 9, 9, 9, 9, 9, 9, 9, 9, 9] }] 0 1
    (by decide) (by decide) (by decide) (by decide)).1 (by decide)

/-- Reprocessing already-processed cells changes nothing. -/
theorem peer_entries_processed (p : PeerRow) :
    peer_entries (processed_peer p) = peer_entries p := by
  simp [peer_entries, processed_peer, process_column_data]

/-- Membership in the expanded peer frame, characterised at the peer
level. -/
theorem mem_expand_user_profiles {peers : List PeerRow} {e : ExpandedRow} :
    e ∈ (expand_user_profiles peers).1 ↔
      ∃ p ∈ peers, e.user_id = p.user_id
        ∧ e.professional_interests = p.professional_interests
        ∧ peerRated p e.conceptUri e.single_job_rating := by
  simp only [expand_user_profiles, expand_rows, peerRated]
  constructor
  · intro h
    rcases List.mem_flatMap.mp h with ⟨p', hp', hm⟩
    rcases List.mem_map.mp hp' with ⟨p, hp, rfl⟩
    rcases List.mem_map.mp hm with ⟨rr, hrr, rfl⟩
    rw [peer_entries_processed] at hrr
    exact ⟨p, hp, rfl, rfl, hrr⟩
  · rintro ⟨p, hp, h1, h2, h3⟩
    refine List.mem_flatMap.mpr ⟨processed_peer p, List.mem_map.mpr ⟨p, hp, rfl⟩, ?_⟩
    refine List.mem_map.mpr ⟨(e.conceptUri, e.single_job_rating), ?_, ?_⟩
    · rw [peer_entries_processed]
      exact h3
    · cases e
      simp only [processed_peer] at h1 h2 ⊢
      simp [h1, h2]

/-- Membership in the decisive-path candidate rows, characterised at the
expanded-frame level. -/
theorem mem_peer_candidate_rows {expanded : List ExpandedRow} {u : Uri} {r : String}
    {shown : List Uri} {e : ExpandedRow} :
    e ∈ peer_candidate_rows expanded u r shown ↔
      e ∈ expanded ∧ e.single_job_rating = "1" ∧ e.conceptUri ∉ shown
      ∧ ∃ m ∈ expanded, m.user_id = e.user_id ∧ m.conceptUri = u
          ∧ m.single_job_rating = r := by
  simp only [peer_candidate_rows]
  constructor
  · intro h
    rcases List.mem_filter.mp h with ⟨h1, hshown⟩
    rcases List.mem_filter.mp h1 with ⟨hmem, hpred⟩
    rw [Bool.and_eq_true] at hpred
    rcases hpred with ⟨hids, hrat⟩
    refine ⟨hmem, by simpa using hrat, by simpa using hshown, ?_⟩
    have hin := List.elem_iff.mp hids
    rcases List.mem_map.mp hin with ⟨m, hm, hmid⟩
    rcases List.mem_filter.mp hm with ⟨hmmem, hmpred⟩
    rw [Bool.and_eq_true] at hmpred
    rcases hmpred with ⟨hmc, hmr⟩
    exact ⟨m, hmmem, hmid, by simpa using hmc, by simpa using hmr⟩
  · rintro ⟨hmem, hrat, hshown, m, hmmem, hmid, hmc, hmr⟩
    refine List.mem_filter.mpr ⟨List.mem_filter.mpr ⟨hmem, ?_⟩, ?_⟩
    · rw [Bool.and_eq_true]
      refine ⟨?_, by simpa using hrat⟩
      refine List.elem_iff.mpr (List.mem_map.mpr ⟨m, ?_, hmid⟩)
      exact List.mem_filter.mpr ⟨hmmem, by simp [hmc, hmr]⟩
    · simpa using hshown

/-- The fallback block never produces the peer-shaped result. -/
theorem history_then_preferences_pools (esco_occupations : List (Uri × String))
    (pool : List OccRow) (esco_kldb : List (Uri × String))
    (preferences : Option (List Nat)) (job_history : List (Uri × Bool))
    (P A : List ExpandedRow) :
    history_then_preferences esco_occupations pool esco_kldb preferences job_history
      ≠ Except.ok (RatingResult.peers P A) := by
  rw [history_then_preferences]
  cases filter_by_job_history esco_occupations pool job_history with
  | error e => simp
  | ok b => simp

/-- Negating a pointwise test turns the all-quantifier of the bucket
split into the negated any-quantifier. -/
theorem all_not_eq_not_any (l : List Nat) (f : Nat → Bool) :
    l.all (fun p => !f p) = !(l.any f) := by
  induction l with
  | nil => rfl
  | cons x t ih => simp [List.all_cons, List.any_cons, ih]

/-- Claim C2 (amended): on the decisive path with a non-empty candidate
set, the two returned buckets partition exactly the peer-sourced
candidate rows — no row is dropped — and a row qualifies exactly when it
comes from some peer's log, carries rating +1, its occupation was not
already shown, and some peer sharing its user id recorded the same rating
for the same most-recent uri at ANY point of its log (not only at a
subsequent position, as the spec words it). -/
theorem kira_C2_amended (pool : List OccRow) (peers : List PeerRow)
    (esco_kldb esco_occupations : List (Uri × String))
    (preferences : Option (List Nat)) (job_history : List (Uri × Bool))
    (shown : List Uri) (ratings : List String) (P A : List ExpandedRow)
    (hres : filter_by_rating pool peers esco_kldb esco_occupations preferences
      job_history (some shown) (some ratings)
      = Except.ok (RatingResult.peers P A)) :
    (P ++ A).Perm (peer_candidate_rows (expand_user_profiles peers).1
      (shown.getLastD "") (ratings.getLastD "") shown)
    ∧ ∀ e, e ∈ peer_candidate_rows (expand_user_profiles peers).1
        (shown.getLastD "") (ratings.getLastD "") shown ↔
      (∃ p ∈ peers, e.user_id = p.user_id
        ∧ e.professional_interests = p.professional_interests
        ∧ peerRated p e.conceptUri e.single_job_rating)
      ∧ e.single_job_rating = "1" ∧ e.conceptUri ∉ shown
      ∧ ∃ p2 ∈ peers, p2.user_id = e.user_id
          ∧ peerRated p2 (shown.getLastD "") (ratings.getLastD "") := by
  constructor
  · simp only [filter_by_rating, Option.getD_some] at hres
    by_cases h0 : (is_nan_or_empty (some shown) || is_nan_or_empty (some ratings)) = true
    · rw [if_pos h0] at hres
      exact absurd hres (history_then_preferences_pools _ _ _ _ _ _ _)
    · rw [if_neg h0] at hres
      by_cases h1 : ((ratings.getLastD "" == "-1") || (ratings.getLastD "" == "1")) = true
      · rw [if_pos h1] at hres
        by_cases hE : ((expand_user_profiles peers).1).isEmpty = true
        · rw [if_pos hE] at hres
          exact absurd hres (by simp)
        rw [if_neg hE] at hres
        by_cases h2 : (peer_candidate_rows (expand_user_profiles peers).1
            (shown.getLastD "") (ratings.getLastD "") shown).isEmpty = true
        · rw [if_pos h2] at hres
          exact absurd hres (history_then_preferences_pools _ _ _ _ _ _ _)
        · rw [if_neg h2] at hres
          cases preferences with
          | none => exact absurd hres (by simp)
          | some prefs =>
            simp only [Except.ok.injEq, RatingResult.peers.injEq] at hres
            obtain ⟨hP, hA⟩ := hres
            subst hP
            subst hA
            have hcongr : (peer_candidate_rows (expand_user_profiles peers).1
                (shown.getLastD "") (ratings.getLastD "") shown).filter
                  (fun e => prefs.all (fun p => !(num_preferences e).contains p))
                = (peer_candidate_rows (expand_user_profiles peers).1
                (shown.getLastD "") (ratings.getLastD "") shown).filter
                  (fun e => !(prefs.any (fun p => (num_preferences e).contains p))) := by
              refine List.filter_congr ?_
              intro e he
              exact all_not_eq_not_any prefs (fun p => (num_preferences e).contains p)
            rw [hcongr]
            exact List.filter_append_perm _ _
      · rw [if_neg h1] at hres
        exact absurd hres (history_then_preferences_pools _ _ _ _ _ _ _)
  · intro e
    rw [mem_peer_candidate_rows]
    constructor
    · rintro ⟨hmem, hrat, hshown, m, hmmem, hmid, hmc, hmr⟩
      refine ⟨mem_expand_user_profiles.mp hmem, hrat, hshown, ?_⟩
      rcases mem_expand_user_profiles.mp hmmem with ⟨p2, hp2, hm1, hm2, hm3⟩
      exact ⟨p2, hp2, hm1.symm.trans hmid, hmc ▸ hmr ▸ hm3⟩
    · rintro ⟨hexp, hrat, hshown, p2, hp2, hpid, hprated⟩
      refine ⟨mem_expand_user_profiles.mpr hexp, hrat, hshown, ?_⟩
      refine ⟨⟨p2.user_id, shown.getLastD "", ratings.getLastD "",
        p2.professional_interests⟩, ?_, hpid, rfl, rfl⟩
      exact mem_expand_user_profiles.mpr ⟨p2, hp2, rfl, rfl, hprated⟩

/-- Claim C2 (counterexample): a peer rated V as +1 BEFORE rating the
most-recent uri U, so the spec-worded subsequent-only candidate set is
empty, yet filter_by_rating returns V in a bucket — the code ignores log
positions.  (With the spec's reading the run would instead fall back to
the no-signal path.) -/
theorem kira_C2_counterexample :
    filter_by_rating []
        [{ user_id := "peer1", job_recommendations := CellVal.strlist ["V", "U"],
           job_ratings := CellVal.strlist ["1", "1"],
           professional_interests := some [] }]
        [] [] (some [1]) [] (some ["U"]) (some ["1"])
      = Except.ok (RatingResult.peers []
          [{ user_id := "peer1", conceptUri := "V", single_job_rating := "1",
             professional_interests := some [] }])
    ∧ spec_subsequent_candidate_uris
        [{ user_id := "peer1", job_recommendations := CellVal.strlist ["V", "U"],
           job_ratings := CellVal.strlist ["1", "1"],
           professional_interests := some [] }] "U" "1" ["U"] = [] :=
  ⟨rfl, rfl⟩

/-- Claim C2 (witness): the bucket partition property evaluated on the
concrete decisive run. -/
theorem kira_C2_witness :
    (([] ++ [⟨"peer1", "V", "1", some []⟩]) : List ExpandedRow).Perm
      (peer_candidate_rows (expand_user_profiles
          [{ user_id := "peer1", job_recommendations := CellVal.strlist ["V", "U"],
             job_ratings := CellVal.strlist ["1", "1"],
             professional_interests := some [] }]).1
        (["U"].getLastD "") (["1"].getLastD "") ["U"]) :=
  (kira_C2_amended []
    [{ user_id := "peer1", job_recommendations := CellVal.strlist ["V", "U"],
       job_ratings := CellVal.strlist ["1", "1"],
       professional_interests := some [] }]
    [] [] (some [1]) [] ["U"] ["1"] []
    [{ user_id := "peer1", conceptUri := "V", single_job_rating := "1",
       professional_interests := some [] }] rfl).1

/-- Claim C6 (amended): when the most recent rating is decisive, the
expanded peer frame has at least one row, and the peer-sourced candidate
set is empty, filter_by_rating falls back to the SKIP-path behaviour:
both buckets equal HistoryFilter then PreferenceFilter applied to the
pool with all previously shown uris removed — not to the entire
candidate pool; and when the expanded peer frame has no rows at all, the
decisive path raises KeyError (the frame has no columns) instead of
falling back at all. -/
theorem kira_C6_amended (pool : List OccRow) (peers : List PeerRow)
    (esco_kldb esco_occupations : List (Uri × String))
    (preferences : Option (List Nat)) (job_history : List (Uri × Bool))
    (shown : List Uri) (ratings : List String)
    (hsh : shown ≠ []) (hrl : ratings ≠ [])
    (hdec : ratings.getLastD "" = "-1" ∨ ratings.getLastD "" = "1") :
    ((expand_user_profiles peers).1 ≠ [] →
      peer_candidate_rows (expand_user_profiles peers).1 (shown.getLastD "")
          (ratings.getLastD "") shown = [] →
      filter_by_rating pool peers esco_kldb esco_occupations preferences job_history
          (some shown) (some ratings)
        = history_then_preferences esco_occupations
            (pool.filter (fun r => !shown.contains r.uri)) esco_kldb preferences
            job_history)
    ∧ ((expand_user_profiles peers).1 = [] →
      filter_by_rating pool peers esco_kldb esco_occupations preferences job_history
          (some shown) (some ratings)
        = Except.error "KeyError: conceptUri") := by
  have h0 : (is_nan_or_empty (some shown) || is_nan_or_empty (some ratings)) = false := by
    simp [is_nan_or_empty, List.isEmpty_iff, hsh, hrl]
  have h1 : ((ratings.getLastD "" == "-1") || (ratings.getLastD "" == "1")) = true := by
    rcases hdec with hd | hd <;> rw [hd] <;> rfl
  constructor
  · intro hne hempty
    have hE : ((expand_user_profiles peers).1).isEmpty = false := by
      cases h : (expand_user_profiles peers).1 with
      | nil => exact absurd h hne
      | cons a t => rfl
    simp only [filter_by_rating, Option.getD_some]
    rw [if_neg (by simp [h0]), if_pos h1,
      if_neg (by intro hc; rw [hE] at hc; cases hc), if_pos (by rw [hempty]; rfl)]
  · intro he
    have hE : ((expand_user_profiles peers).1).isEmpty = true := by
      rw [he]
      rfl
    simp only [filter_by_rating, Option.getD_some]
    rw [if_neg (by simp [h0]), if_pos h1, if_pos hE]

/-- Claim C6 (counterexample): decisive rating on uri u with a peer
corpus that yields expanded rows but no matching peer; the code's
fallback removes the already-shown uri u from the pool before filtering,
so its buckets differ from HistoryFilter then PreferenceFilter on the
ENTIRE pool, which would still contain u. -/
theorem kira_C6_counterexample :
    filter_by_rating
        [{ uri := "u", fs := [0, 0, 0, 0, 0, 0, 0, 0, 0, 0] },
         { uri := "w", fs := [1, 0, 0, 0, 0, 0, 0, 0, 0, 0] }]
        [⟨"p9", CellVal.strlist ["Z"], CellVal.strlist ["-1"], none⟩] [("u", "1"), ("w", "1")] [] none [] (some ["u"]) (some ["1"])
      = Except.ok (RatingResult.pools
          [{ row := { uri := "w", fs := [1, 0, 0, 0, 0, 0, 0, 0, 0, 0] },
             kldb_keys := "1" }]
          [{ row := { uri := "w", fs := [1, 0, 0, 0, 0, 0, 0, 0, 0, 0] },
             kldb_keys := "1" }])
    ∧ history_then_preferences []
        [{ uri := "u", fs := [0, 0, 0, 0, 0, 0, 0, 0, 0, 0] },
         { uri := "w", fs := [1, 0, 0, 0, 0, 0, 0, 0, 0, 0] }]
        [("u", "1"), ("w", "1")] none []
      = Except.ok (RatingResult.pools
          [{ row := { uri := "u", fs := [0, 0, 0, 0, 0, 0, 0, 0, 0, 0] },
             kldb_keys := "1" },
           { row := { uri := "w", fs := [1, 0, 0, 0, 0, 0, 0, 0, 0, 0] },
             kldb_keys := "1" }]
          [{ row := { uri := "u", fs := [0, 0, 0, 0, 0, 0, 0, 0, 0, 0] },
             kldb_keys := "1" },
           { row := { uri := "w", fs := [1, 0, 0, 0, 0, 0, 0, 0, 0, 0] },
             kldb_keys := "1" }])
    ∧ [({ row := { uri := "w", fs := [1, 0, 0, 0, 0, 0, 0, 0, 0, 0] },
          kldb_keys := "1" } : MergedRow)]
      ≠ [{ row := { uri := "u", fs := [0, 0, 0, 0, 0, 0, 0, 0, 0, 0] },
           kldb_keys := "1" },
         { row := { uri := "w", fs := [1, 0, 0, 0, 0, 0, 0, 0, 0, 0] },
           kldb_keys := "1" }] :=
  ⟨rfl, rfl, by decide⟩

/-- Claim C6 (witness): the amended fallback equation evaluated on the
concrete run with one non-matching peer. -/
theorem kira_C6_witness :
    filter_by_rating
        [{ uri := "u", fs := [0, 0, 0, 0, 0, 0, 0, 0, 0, 0] },
         { uri := "w", fs := [1, 0, 0, 0, 0, 0, 0, 0, 0, 0] }]
        [⟨"p9", CellVal.strlist ["Z"], CellVal.strlist ["-1"], none⟩] [("u", "1"), ("w", "1")] [] none [] (some ["u"]) (some ["1"])
      = history_then_preferences []
          ([{ uri := "u", fs := [0, 0, 0, 0, 0, 0, 0, 0, 0, 0] },
         { uri := "w", fs := [1, 0, 0, 0, 0, 0, 0, 0, 0, 0] }].filter
            (fun r => !(List.contains ["u"] r.uri)))
          [("u", "1"), ("w", "1")] none [] :=
  (kira_C6_amended
    [{ uri := "u", fs := [0, 0, 0, 0, 0, 0, 0, 0, 0, 0] },
         { uri := "w", fs := [1, 0, 0, 0, 0, 0, 0, 0, 0, 0] }]
    [⟨"p9", CellVal.strlist ["Z"], CellVal.strlist ["-1"], none⟩] [("u", "1"), ("w", "1")] [] none [] ["u"] ["1"]
    (by decide) (by decide) (Or.inr rfl)).1 (by decide) rfl

/-- Looking up a pending candidate's uri in the loop state finds that
candidate when no earlier row shares its uri. -/
theorem find?_rec_unique (kept cs : List RecRow) (c : RecRow)
    (hkept : ∀ x ∈ kept, x.conceptUri ≠ c.conceptUri) :
    (kept ++ c :: cs).find? (fun r => r.conceptUri == c.conceptUri) = some c := by
  induction kept with
  | nil =>
    rw [List.nil_append]
    exact List.find?_cons_of_pos _ (by simp)
  | cons k t ih =>
    rw [List.cons_append, List.find?_cons_of_neg]
    · exact ih (fun x hx => hkept x (List.mem_cons_of_mem _ hx))
    · simpa using hkept k (List.mem_cons_self _ _)

/-- Removing a pending candidate's uri from the loop state removes
exactly that candidate when no other row shares its uri. -/
theorem filter_rec_unique (kept cs : List RecRow) (c : RecRow)
    (hkept : ∀ x ∈ kept, x.conceptUri ≠ c.conceptUri)
    (hcs : ∀ x ∈ cs, x.conceptUri ≠ c.conceptUri) :
    (kept ++ c :: cs).filter (fun r => r.conceptUri != c.conceptUri) = kept ++ cs := by
  rw [List.filter_append]
  have h1 : kept.filter (fun r => r.conceptUri != c.conceptUri) = kept :=
    List.filter_eq_self.mpr (fun x hx => by simpa using hkept x hx)
  have h2 : (c :: cs).filter (fun r => r.conceptUri != c.conceptUri) = cs := by
    rw [List.filter_cons_of_neg (by simp)]
    exact List.filter_eq_self.mpr (fun x hx => by simpa using hcs x hx)
  rw [h1, h2]

/-- Invariant of the refine_recommendations loop: processing the pending
candidates turns the state into the kept survivors plus, per replaced
candidate, its substitution rows appended in candidate order.  Requires
pairwise-distinct conceptUris and a broader relation for every pending
candidate (the lookup outside the try block). -/
theorem refine_loop_spec (bro : List (Uri × Uri)) (preferred scaled : List OccRow)
    (pending : List RecRow) :
    ∀ (kept acc : List RecRow),
    ((kept ++ pending).map (fun r => r.conceptUri)).Nodup →
    (∀ c ∈ pending, (look_up_broader bro c.conceptUri).isSome) →
    refine_loop bro preferred scaled (pending.map (fun r => r.conceptUri))
        (kept ++ pending, acc)
      = Except.ok (kept ++ pending.filter (fun c => !refine_replaces bro scaled c),
          acc ++ pending.flatMap (fun c =>
            if refine_replaces bro scaled c then refine_substitute bro preferred c
            else [])) := by
  induction pending with
  | nil =>
    intro kept acc hnd hbro
    simp [refine_loop]
  | cons c cs ih =>
    intro kept acc hnd hbro
    have hnd' := hnd
    rw [List.map_append, List.map_cons, List.nodup_append] at hnd'
    obtain ⟨hnk, hnc, hdisj⟩ := hnd'
    have hkept : ∀ x ∈ kept, x.conceptUri ≠ c.conceptUri := by
      intro x hx heq
      exact (hdisj (List.mem_map_of_mem _ hx)) (by simp [heq])
    have hcs : ∀ x ∈ cs, x.conceptUri ≠ c.conceptUri := by
      intro x hx heq
      rcases List.nodup_cons.mp hnc with ⟨hcnot, -⟩
      exact hcnot (heq ▸ List.mem_map_of_mem _ hx)
    have hbro' : ∀ x ∈ cs, (look_up_broader bro x.conceptUri).isSome :=
      fun x hx => hbro x (List.mem_cons_of_mem _ hx)
    have hndtail : ((kept ++ [c] ++ cs).map (fun r => r.conceptUri)).Nodup := by
      rw [List.append_assoc, List.singleton_append]
      exact hnd
    have hnddrop : ((kept ++ cs).map (fun r => r.conceptUri)).Nodup :=
      List.Nodup.sublist
        (List.Sublist.map _ ((List.sublist_cons_self c cs).append_left kept)) hnd
    obtain ⟨b, hb⟩ := Option.isSome_iff_exists.mp (hbro c (List.mem_cons_self _ _))
    rw [List.map_cons, refine_loop]
    cases hfb : scaled.find? (fun r => r.uri == b) with
    | none =>
      have hstep : refine_step bro preferred scaled (kept ++ c :: cs, acc) c.conceptUri
          = Except.ok (kept ++ c :: cs, acc) := by
        simp only [refine_step, hb, hfb]
      have hrep : refine_replaces bro scaled c = false := by
        simp only [refine_replaces, hb, hfb]
      rw [hstep]
      show refine_loop bro preferred scaled (cs.map (fun r => r.conceptUri))
          (kept ++ c :: cs, acc) = _
      have hassoc : kept ++ c :: cs = (kept ++ [c]) ++ cs := by
        rw [List.append_assoc, List.singleton_append]
      rw [hassoc, ih (kept ++ [c]) acc hndtail hbro']
      rw [List.filter_cons_of_pos (by simp [hrep]), List.flatMap_cons, hrep]
      simp [List.append_assoc]
    | some bp =>
      have hfind : (kept ++ c :: cs).find? (fun r => r.conceptUri == c.conceptUri)
          = some c := find?_rec_unique kept cs c hkept
      cases hcmp : compare_occupation_similarity c.fs bp.fs with
      | false =>
        have hstep : refine_step bro preferred scaled (kept ++ c :: cs, acc)
            c.conceptUri = Except.ok (kept ++ c :: cs, acc) := by
          simp only [refine_step, hb, hfb, hfind, hcmp]
          rw [if_neg (by simp)]
        have hrep : refine_replaces bro scaled c = false := by
          simp only [refine_replaces, hb, hfb, hcmp, Bool.false_and]
        rw [hstep]
        show refine_loop bro preferred scaled (cs.map (fun r => r.conceptUri))
            (kept ++ c :: cs, acc) = _
        have hassoc : kept ++ c :: cs = (kept ++ [c]) ++ cs := by
          rw [List.append_assoc, List.singleton_append]
        rw [hassoc, ih (kept ++ [c]) acc hndtail hbro']
        rw [List.filter_cons_of_pos (by simp [hrep]), List.flatMap_cons, hrep]
        simp [List.append_assoc]
      | true =>
        cases hb2 : look_up_broader bro b with
        | none =>
          have hstep : refine_step bro preferred scaled (kept ++ c :: cs, acc)
              c.conceptUri = Except.ok (kept ++ c :: cs, acc) := by
            simp only [refine_step, hb, hfb, hfind, hcmp, hb2]
            rw [if_pos (by simp)]
          have hrep : refine_replaces bro scaled c = false := by
            simp only [refine_replaces, hb, hfb, hcmp, hb2, Option.isSome_none,
              Bool.true_and]
          rw [hstep]
          show refine_loop bro preferred scaled (cs.map (fun r => r.conceptUri))
              (kept ++ c :: cs, acc) = _
          have hassoc : kept ++ c :: cs = (kept ++ [c]) ++ cs := by
            rw [List.append_assoc, List.singleton_append]
          rw [hassoc, ih (kept ++ [c]) acc hndtail hbro']
          rw [List.filter_cons_of_pos (by simp [hrep]), List.flatMap_cons, hrep]
          simp [List.append_assoc]
        | some nb =>
          have hstep : refine_step bro preferred scaled (kept ++ c :: cs, acc)
              c.conceptUri
              = Except.ok (kept ++ cs,
                  acc ++ (preferred.filter (fun r => r.uri == b)).map
                    (fun r => ⟨r.uri, r.fs, some nb⟩)) := by
            simp only [refine_step, hb, hfb, hfind, hcmp, hb2]
            rw [if_pos (by simp)]
            rw [filter_rec_unique kept cs c hkept hcs]
          have hrep : refine_replaces bro scaled c = true := by
            simp only [refine_replaces, hb, hfb, hcmp, hb2, Option.isSome_some,
              Bool.true_and]
          have hsub : refine_substitute bro preferred c
              = (preferred.filter (fun r => r.uri == b)).map
                  (fun r => ⟨r.uri, r.fs, some nb⟩) := by
            simp only [refine_substitute, hb, hb2]
          rw [hstep]
          show refine_loop bro preferred scaled (cs.map (fun r => r.conceptUri))
              (kept ++ cs,
                acc ++ (preferred.filter (fun r => r.uri == b)).map
                  (fun r => ⟨r.uri, r.fs, some nb⟩)) = _
          rw [ih kept _ hnddrop hbro']
          rw [List.filter_cons_of_neg (by simp [hrep]), List.flatMap_cons, hrep]
          rw [hsub]
          simp [List.append_assoc]

/-- Claim C3 (amended): over candidates with pairwise-distinct uris that
all have a broader relation, the refiner replaces each candidate exactly
when its broader profile is present in the detailed pool AND the absolute
difference of the FIRST skill component (the degenerate distance computed
through reshape(-1,1)) is below 30 AND the broader occupation has its own
broader relation; replacement is a single step — the broader profile's
own broaderUri is recorded but the test is not repeated from it — and the
substituted rows are the preferred-pool rows of the broader occupation,
appended after the kept candidates. -/
theorem kira_C3_amended (bro : List (Uri × Uri)) (preferred scaled : List OccRow)
    (cands : List RecRow)
    (hnd : (cands.map (fun r => r.conceptUri)).Nodup)
    (hbro : ∀ c ∈ cands, (look_up_broader bro c.conceptUri).isSome) :
    refine_recommendations bro cands preferred scaled
      = Except.ok (cands.filter (fun c => !refine_replaces bro scaled c)
          ++ cands.flatMap (fun c =>
            if refine_replaces bro scaled c then refine_substitute bro preferred c
            else [])) := by
  have h := refine_loop_spec bro preferred scaled cands [] [] (by simpa using hnd) hbro
  rw [List.nil_append] at h
  rw [refine_recommendations, h]
  simp

/-- Claim C3 (counterexample): a candidate whose 10-dimensional squared
distance to its broader profile is 90000 (Euclidean distance 300, far
above 30) is nevertheless replaced, because the code's reshape bug
compares only the first components (both 0 here); and the replacement is
one step only even though the broader occupation has its own broader
relation. -/
theorem kira_C3_counterexample :
    refine_recommendations [("c", "b"), ("b", "bb")]
        [⟨"c", [0, 100, 100, 100, 100, 100, 100, 100, 100, 100], some "b"⟩]
        [⟨"b", [0, 0, 0, 0, 0, 0, 0, 0, 0, 0]⟩]
        [⟨"b", [0, 0, 0, 0, 0, 0, 0, 0, 0, 0]⟩]
      = Except.ok [⟨"b", [0, 0, 0, 0, 0, 0, 0, 0, 0, 0], some "bb"⟩]
    ∧ ¬ distSq [0, 100, 100, 100, 100, 100, 100, 100, 100, 100]
        [0, 0, 0, 0, 0, 0, 0, 0, 0, 0] < 900 :=
  ⟨rfl, by decide⟩

/-- Claim C3 (witness): the amended replacement rule applied to a
concrete pair of candidates, one replaced and one kept as-is. -/
theorem kira_C3_witness :
    refine_recommendations [("c", "b"), ("b", "bb"), ("k", "kb")]
        [⟨"c", [0, 100, 100, 100, 100, 100, 100, 100, 100, 100], some "b"⟩,
         ⟨"k", [5, 5, 5, 5, 5, 5, 5, 5, 5, 5], some "kb"⟩]
        [⟨"b", [0, 0, 0, 0, 0, 0, 0, 0, 0, 0]⟩]
        [⟨"b", [0, 0, 0, 0, 0, 0, 0, 0, 0, 0]⟩]
      = Except.ok
          ([⟨"c", [0, 100, 100, 100, 100, 100, 100, 100, 100, 100], some "b"⟩,
            ⟨"k", [5, 5, 5, 5, 5, 5, 5, 5, 5, 5], some "kb"⟩].filter
              (fun c => !refine_replaces [("c", "b"), ("b", "bb"), ("k", "kb")]
                [⟨"b", [0, 0, 0, 0, 0, 0, 0, 0, 0, 0]⟩] c)
            ++ [⟨"c", [0, 100, 100, 100, 100, 100, 100, 100, 100, 100], some "b"⟩,
                ⟨"k", [5, 5, 5, 5, 5, 5, 5, 5, 5, 5], some "kb"⟩].flatMap
              (fun c =>
                if refine_replaces [("c", "b"), ("b", "bb"), ("k", "kb")]
                    [⟨"b", [0, 0, 0, 0, 0, 0, 0, 0, 0, 0]⟩] c
                then refine_substitute [("c", "b"), ("b", "bb"), ("k", "kb")]
                  [⟨"b", [0, 0, 0, 0, 0, 0, 0, 0, 0, 0]⟩] c
                else [])) :=
  kira_C3_amended [("c", "b"), ("b", "bb"), ("k", "kb")]
    [⟨"b", [0, 0, 0, 0, 0, 0, 0, 0, 0, 0]⟩]
    [⟨"b", [0, 0, 0, 0, 0, 0, 0, 0, 0, 0]⟩]
    [⟨"c", [0, 100, 100, 100, 100, 100, 100, 100, 100, 100], some "b"⟩,
     ⟨"k", [5, 5, 5, 5, 5, 5, 5, 5, 5, 5], some "kb"⟩]
    (by decide) (by decide)

/-- A mapped list equals itself exactly when the function fixes every
element. -/
theorem list_map_eq_self {α : Type} (f : α → α) (l : List α) :
    l.map f = l ↔ ∀ a ∈ l, f a = a := by
  induction l with
  | nil => simp
  | cons x t ih => simp [ih]

/-- A peer row survives the in-place column processing unchanged exactly
when both cells already hold lists. -/
theorem processed_peer_eq_self (p : PeerRow) :
    processed_peer p = p ↔
      (∃ l, p.job_recommendations = CellVal.strlist l)
      ∧ ∃ l, p.job_ratings = CellVal.strlist l := by
  constructor
  · intro h
    exact ⟨⟨process_column_data p.job_recommendations,
        (congrArg PeerRow.job_recommendations h).symm⟩,
      ⟨process_column_data p.job_ratings, (congrArg PeerRow.job_ratings h).symm⟩⟩
  · rintro ⟨⟨l1, h1⟩, l2, h2⟩
    cases p
    simp only at h1 h2
    subst h1
    subst h2
    simp [processed_peer, process_column_data]

/-- Renaming changes the column list whenever the legacy column name is
present. -/
theorem rename_ne_of_contains : ∀ (cols : List String),
    cols.contains "self_initiative" = true → rename_fs_columns cols ≠ cols := by
  intro cols
  induction cols with
  | nil =>
    intro hct
    simp at hct
  | cons x t ih =>
    intro hct h
    rw [rename_fs_columns, List.map_cons] at h
    injection h with h1 h2
    by_cases hx : x = "self_initiative"
    · subst hx
      exact absurd h1 (by decide)
    · rw [List.contains_cons] at hct
      simp only [Bool.or_eq_true, beq_iff_eq] at hct
      rcases hct with he | ht2
      · exact hx he.symm
      · exact ih ht2 h2

/-- Claim C9 (amended): the engine does mutate shared inputs in place in
two spots.  filter_by_rating, through expand_user_profiles, rewrites the
job_recommendations and job_ratings columns of the shared user-profiles
frame: the frame is unchanged after the call exactly when every such cell
already holds a list.  calculate_distances renames the columns of its
input occupation frame in place: the frame is unchanged exactly when the
legacy column name self_initiative is absent. -/
theorem kira_C9_amended (df : List PeerRow) (f : FsFrame) :
    ((expand_user_profiles df).2 = df ↔
      ∀ p ∈ df, (∃ l, p.job_recommendations = CellVal.strlist l)
        ∧ ∃ l, p.job_ratings = CellVal.strlist l)
    ∧ (calculate_distances_frame_post f = f ↔
        f.cols.contains "self_initiative" = false) := by
  constructor
  · rw [show (expand_user_profiles df).2 = df.map processed_peer from rfl]
    rw [list_map_eq_self]
    constructor
    · intro h p hp
      exact (processed_peer_eq_self p).mp (h p hp)
    · intro h p hp
      exact (processed_peer_eq_self p).mpr (h p hp)
  · constructor
    · intro h
      cases hcv : f.cols.contains "self_initiative"
      · rfl
      · exfalso
        simp only [calculate_distances_frame_post] at h
        rw [if_pos hcv] at h
        exact rename_ne_of_contains f.cols hcv (congrArg FsFrame.cols h)
    · intro h
      simp only [calculate_distances_frame_post]
      rw [if_neg (by intro hc; rw [h] at hc; cases hc)]

/-- Claim C9 (counterexample): a shared user-profiles frame with raw
string cells is different after the filtering stage ran (the columns were
rewritten in place), and an occupation frame carrying the legacy column
names is different after calculate_distances ran (the columns were
renamed in place); both contradict the claim that shared inputs are equal
before and after every call. -/
theorem kira_C9_counterexample :
    (expand_user_profiles
        [⟨"p1", CellVal.str "a,b", CellVal.str "1,1", none⟩]).2
      ≠ [⟨"p1", CellVal.str "a,b", CellVal.str "1,1", none⟩]
    ∧ calculate_distances_frame_post
        ⟨["self_initiative", "flexibility"], [("o1", [1, 2])]⟩
      ≠ ⟨["self_initiative", "flexibility"], [("o1", [1, 2])]⟩ := by
  constructor
  · decide
  · decide
